import Mathlib

/-!
Verification development for the `space-node-client` caching subsystem.

The definitions below are a shallow embedding of the TypeScript sources:

* `BuiltinCacheProvider` — src/examples/cache-examples.ts (second document):
  the in-process Map-backed TTL store.  The JS `Map` is modelled as an
  insertion-ordered association list; `Date.now()` is an explicit `now : Nat`
  parameter (milliseconds).  Each operation takes one `now`, matching a
  single synchronous invocation of the corresponding method.
* glob matching — `BuiltinCacheProvider.keys` builds a JS regex with
  `pattern.replace(/\*/g, '.*').replace(/\?/g, '.')` and calls
  `regex.test(key)`.  `RegExp.test` without anchors succeeds iff the regex
  matches SOME substring of the key.  `globTokens`/`globSearch` mirror this
  for patterns whose characters other than `*` and `?` are regex-literal
  (`safePat` below); ids and patterns built from letters, digits, `:`, `-`
  and `_` satisfy this.
* `CacheModule` — src/unnamed/part_004: the coordinator; adds the
  `space-client:` namespace on top of the provider and implements
  `invalidateUser`.
* `CacheCoordinator` — the same `CacheModule` class, but over an abstract
  provider whose operations may fail, to express its fault isolation.
* `CacheProviderFactory.validate` / `RedisCacheProvider.setCmd` —
  src/unnamed/part_003.
* `ContractModule` / `FeatureModule` — src/main/api/ContractModule.ts
  (cache-aware versions): domain operations taking the remote call's
  outcome as an explicit `Except` parameter.
-/

/-- One compiled token of the glob pattern used by `BuiltinCacheProvider.keys`:
a literal character, `*` (becomes `.*` in the JS regex) or `?` (becomes `.`). -/
inductive GTok where
  | lit (c : Char)
  | star
  | qmark
  deriving DecidableEq, Repr

/-- Compile a glob pattern string to tokens, mirroring
`pattern.replace(/\*/g, '.*').replace(/\?/g, '.')` for patterns whose other
characters are regex-literal. -/
def globTokens (p : String) : List GTok :=
  p.toList.map (fun c => if c = '*' then GTok.star else if c = '?' then GTok.qmark else GTok.lit c)

/-- All suffixes of a character list, longest first (including the empty one). -/
def charTails : List Char → List (List Char)
  | [] => [[]]
  | c :: cs => (c :: cs) :: charTails cs

/-- `globStart ts cs = true` iff the token list matches some leading segment
of `cs` (the JS regex, being unanchored at the end, does not need to consume
the whole string).  `*` may swallow any run of characters, expressed by
trying every suffix. -/
def globStart : List GTok → List Char → Bool
  | [], _ => true
  | GTok.lit _ :: _, [] => false
  | GTok.lit c :: ts, d :: ds => c = d && globStart ts ds
  | GTok.qmark :: _, [] => false
  | GTok.qmark :: ts, _ :: ds => globStart ts ds
  | GTok.star :: ts, cs => (charTails cs).any (globStart ts)

/-- `globSearch ts cs = true` iff the token list matches a segment starting at
some position of `cs`: the semantics of `RegExp.test` for an unanchored
regex. -/
def globSearch (ts : List GTok) (cs : List Char) : Bool :=
  (charTails cs).any (globStart ts)

/-- `new RegExp(pattern.replace(/\*/g, '.*').replace(/\?/g, '.')).test(key)`,
for regex-safe patterns. -/
def regexTest (pattern key : String) : Bool :=
  globSearch (globTokens pattern) key.toList

/-- Characters whose meaning in a JS regex is the literal character itself
(we restrict to an allowlist so that the model above is faithful). -/
def safeChar (c : Char) : Bool :=
  c.isAlphanum || c = ':' || c = '-' || c = '_' || c = '*' || c = '?'

/-- Patterns/ids for which `globTokens` is a faithful model of the JS regex
translation. -/
def safePat (s : String) : Bool :=
  s.toList.all safeChar

/-- Declarative full glob matching (from the spec's words): `*` matches any
run of characters, `?` matches exactly one character, a literal matches
itself, and the whole token list must consume the whole character list. -/
inductive GMatch : List GTok → List Char → Prop where
  | nil : GMatch [] []
  | lit {c : Char} {ts : List GTok} {cs : List Char} :
      GMatch ts cs → GMatch (GTok.lit c :: ts) (c :: cs)
  | qmark {c : Char} {ts : List GTok} {cs : List Char} :
      GMatch ts cs → GMatch (GTok.qmark :: ts) (c :: cs)
  | star (run : List Char) {ts : List GTok} {cs : List Char} :
      GMatch ts cs → GMatch (GTok.star :: ts) (run ++ cs)

/-- Declarative semantics of the unanchored JS regex test: some contiguous
segment of the key is fully matched by the compiled glob pattern. -/
def SubstringGlobMatch (pattern key : String) : Prop :=
  ∃ pre mid suf, key.toList = pre ++ mid ++ suf ∧ GMatch (globTokens pattern) mid

/-- Full-match glob semantics, modelled from the spec's words ("the glob
pattern matches the key in full"): the whole key is consumed. -/
def specGlobFullMatch (pattern key : String) : Prop :=
  GMatch (globTokens pattern) key.toList

theorem mem_charTails_append (run rest : List Char) : rest ∈ charTails (run ++ rest) := by
  induction run with
  | nil =>
    cases rest with
    | nil => simp [charTails]
    | cons c cs => simp [charTails]
  | cons r rs ih => simpa [charTails] using Or.inr ih

theorem exists_append_of_mem_charTails {s cs : List Char} (h : s ∈ charTails cs) :
    ∃ run, cs = run ++ s := by
  induction cs with
  | nil =>
    simp [charTails] at h
    exact ⟨[], by simp [h]⟩
  | cons c cs ih =>
    simp only [charTails, List.mem_cons] at h
    rcases h with rfl | h
    · exact ⟨[], rfl⟩
    · obtain ⟨run, rfl⟩ := ih h
      exact ⟨c :: run, rfl⟩

theorem charList_isPrefixOf_iff (l1 l2 : List Char) :
    l1.isPrefixOf l2 = true ↔ ∃ t, l1 ++ t = l2 := by
  induction l1 generalizing l2 with
  | nil => simp [List.isPrefixOf]
  | cons a as ih =>
    cases l2 with
    | nil => simp [List.isPrefixOf]
    | cons b bs =>
      simp only [List.isPrefixOf, Bool.and_eq_true, beq_iff_eq, ih, List.cons_append,
        List.cons.injEq]
      constructor
      · rintro ⟨rfl, t, rfl⟩
        exact ⟨t, rfl, rfl⟩
      · rintro ⟨t, rfl, rfl⟩
        exact ⟨rfl, t, rfl⟩

/-- Soundness half of matcher correctness: a declarative match of a leading
segment makes `globStart` succeed. -/
theorem globStart_of_gmatch {ts : List GTok} {mid suf : List Char}
    (h : GMatch ts mid) : globStart ts (mid ++ suf) = true := by
  induction h with
  | nil => rfl
  | lit _ ih => simpa [globStart] using ih
  | qmark _ ih => simpa [globStart] using ih
  | star run _ ih =>
    rename_i ts' cs' _
    show (charTails (run ++ cs' ++ suf)).any (globStart ts') = true
    refine List.any_eq_true.mpr ⟨cs' ++ suf, ?_, ih⟩
    simpa using mem_charTails_append run (cs' ++ suf)

/-- Completeness half of matcher correctness. -/
theorem gmatch_of_globStart : ∀ ts cs, globStart ts cs = true →
    ∃ mid suf, cs = mid ++ suf ∧ GMatch ts mid := by
  intro ts
  induction ts with
  | nil => exact fun cs _ => ⟨[], cs, rfl, GMatch.nil⟩
  | cons t ts ih =>
    intro cs h
    match t, cs with
    | GTok.lit c, [] => simp [globStart] at h
    | GTok.lit c, d :: ds =>
      simp only [globStart, Bool.and_eq_true, decide_eq_true_eq] at h
      obtain ⟨rfl, h2⟩ := h
      obtain ⟨mid, suf, rfl, hm⟩ := ih ds h2
      exact ⟨c :: mid, suf, rfl, GMatch.lit hm⟩
    | GTok.qmark, [] => simp [globStart] at h
    | GTok.qmark, d :: ds =>
      simp only [globStart] at h
      obtain ⟨mid, suf, rfl, hm⟩ := ih ds h
      exact ⟨d :: mid, suf, rfl, GMatch.qmark hm⟩
    | GTok.star, cs =>
      have h' : ∃ s ∈ charTails cs, globStart ts s = true := by
        simpa [globStart] using List.any_eq_true.mp h
      obtain ⟨s, hs, hps⟩ := h'
      obtain ⟨run, rfl⟩ := exists_append_of_mem_charTails hs
      obtain ⟨mid, suf, rfl, hm⟩ := ih s hps
      exact ⟨run ++ mid, suf, by simp, GMatch.star run hm⟩

/-- Matcher correctness for leading-segment matching. -/
theorem globStart_iff {ts : List GTok} {cs : List Char} :
    globStart ts cs = true ↔ ∃ mid suf, cs = mid ++ suf ∧ GMatch ts mid := by
  constructor
  · exact gmatch_of_globStart ts cs
  · rintro ⟨mid, suf, rfl, hm⟩
    exact globStart_of_gmatch hm

/-- Matcher correctness for the unanchored regex test. -/
theorem globSearch_iff {ts : List GTok} {cs : List Char} :
    globSearch ts cs = true ↔ ∃ pre mid suf, cs = pre ++ mid ++ suf ∧ GMatch ts mid := by
  constructor
  · intro h
    obtain ⟨s, hs, hps⟩ := List.any_eq_true.mp h
    obtain ⟨pre, rfl⟩ := exists_append_of_mem_charTails hs
    obtain ⟨mid, suf, rfl, hm⟩ := globStart_iff.mp hps
    exact ⟨pre, mid, suf, by simp, hm⟩
  · rintro ⟨pre, mid, suf, hsplit, hm⟩
    refine List.any_eq_true.mpr ⟨mid ++ suf, ?_, globStart_iff.mpr ⟨mid, suf, rfl, hm⟩⟩
    rw [hsplit, List.append_assoc]
    exact mem_charTails_append pre (mid ++ suf)

/-- `regexTest` agrees with the declarative substring-glob semantics. -/
theorem regexTest_iff {pattern key : String} :
    regexTest pattern key = true ↔ SubstringGlobMatch pattern key :=
  globSearch_iff

example : regexTest "user:123:*" "space:user:123:contract" = true := by decide
example : regexTest "b" "ab" = true := by decide
example : regexTest "user:12?:c" "user:123:contract" = true := by decide
example : regexTest "xyz" "user:123:contract" = false := by decide

/-- A stored cache entry (src/main/types/cache.ts `CacheEntry`): value plus
creation time, entry ttl (seconds) and the authoritative expiry instant
`expiresAt = createdAt + ttl * 1000` (milliseconds). -/
structure CacheEntry (α : Type) where
  value : α
  createdAt : Nat
  ttl : Int
  expiresAt : Int
  deriving DecidableEq, Repr

/-- Lookup in the association list modelling the JS `Map` (first match). -/
def entriesLookup {α : Type} : List (String × CacheEntry α) → String → Option (CacheEntry α)
  | [], _ => none
  | (k, e) :: rest, key => if k = key then some e else entriesLookup rest key

/-- `Map.set`: update in place when present (keeping position), else append. -/
def entriesSet {α : Type} : List (String × CacheEntry α) → String → CacheEntry α →
    List (String × CacheEntry α)
  | [], key, e => [(key, e)]
  | (k, e') :: rest, key, e =>
    if k = key then (key, e) :: rest else (k, e') :: entriesSet rest key e

/-- `Map.delete`: remove the entry for the key (first occurrence). -/
def entriesDelete {α : Type} : List (String × CacheEntry α) → String →
    List (String × CacheEntry α)
  | [], _ => []
  | (k, e) :: rest, key => if k = key then rest else (k, e) :: entriesDelete rest key

/-- The in-process backend (`BuiltinCacheProvider`,
src/examples/cache-examples.ts): a `Map` with a default ttl.  The background
sweep only removes entries that are already observationally absent and is not
modelled; `close`/`getStats` are not needed by any claim. -/
structure BuiltinCacheProvider (α : Type) where
  defaultTtl : Int := 300
  entries : List (String × CacheEntry α) := []
  deriving DecidableEq, Repr

/-- `get(key)`: value if present and live; on a stale hit, lazily evict and
return null.  Expiry test is `Date.now() > entry.expiresAt` (strict). -/
def BuiltinCacheProvider.get {α : Type} (c : BuiltinCacheProvider α) (now : Nat) (key : String) :
    Option α × BuiltinCacheProvider α :=
  match entriesLookup c.entries key with
  | none => (none, c)
  | some entry =>
    if (now : Int) > entry.expiresAt then
      (none, { c with entries := entriesDelete c.entries key })
    else
      (some entry.value, c)

/-- `set(key, value, ttl?)`: `const actualTtl = ttl || this.defaultTtl` (so an
explicit ttl of 0 falls back to the default — JS falsiness), then stores an
entry with `expiresAt = now + actualTtl * 1000`. -/
def BuiltinCacheProvider.set {α : Type} (c : BuiltinCacheProvider α) (now : Nat) (key : String)
    (value : α) (ttl? : Option Int) : BuiltinCacheProvider α :=
  let actualTtl : Int :=
    match ttl? with
    | some t => if t ≠ 0 then t else c.defaultTtl
    | none => c.defaultTtl
  { c with entries := entriesSet c.entries key ⟨value, now, actualTtl, (now : Int) + actualTtl * 1000⟩ }

/-- `delete(key)`: idempotent removal. -/
def BuiltinCacheProvider.delete {α : Type} (c : BuiltinCacheProvider α) (key : String) :
    BuiltinCacheProvider α :=
  { c with entries := entriesDelete c.entries key }

/-- `clear()`: removes all entries. -/
def BuiltinCacheProvider.clear {α : Type} (c : BuiltinCacheProvider α) : BuiltinCacheProvider α :=
  { c with entries := [] }

/-- `has(key)`: same liveness check as `get`, with lazy eviction. -/
def BuiltinCacheProvider.has {α : Type} (c : BuiltinCacheProvider α) (now : Nat) (key : String) :
    Bool × BuiltinCacheProvider α :=
  match entriesLookup c.entries key with
  | none => (false, c)
  | some entry =>
    if (now : Int) > entry.expiresAt then
      (false, { c with entries := entriesDelete c.entries key })
    else
      (true, c)

/-- `keys(pattern?)`: all stored keys (live or not); with a pattern, filtered
by the UNANCHORED regex built from the glob pattern. -/
def BuiltinCacheProvider.keys {α : Type} (c : BuiltinCacheProvider α) (pattern? : Option String) :
    List String :=
  let allKeys := c.entries.map Prod.fst
  match pattern? with
  | none => allKeys
  | some p => allKeys.filter (fun k => regexTest p k)

/-- `str.replace(pat, '')` for a string `pat`: removes the FIRST occurrence
of `pat` (JS `String.replace` with a string argument replaces only the first
occurrence). -/
def replaceFirstAux (pat : List Char) : List Char → List Char
  | [] => []
  | c :: cs =>
    if pat.isPrefixOf (c :: cs) then (c :: cs).drop pat.length
    else c :: replaceFirstAux pat cs

/-- `s.replace(pat, '')`. -/
def replaceFirst (s pat : String) : String :=
  (replaceFirstAux pat.toList s.toList).asString

/-- The coordinator's namespace (`CacheModule.keyPrefix`). -/
def spaceKeyPfx : String := "space-client:"

/-- The coordinator (`CacheModule`, src/unnamed/part_004) over the in-process
backend.  `enabled` and the optional provider mirror the class fields; the
builtin provider never throws, so the try/catch wrappers in the source are
identities here (the abstract-provider coordinator below keeps them). -/
structure CacheModule (α : Type) where
  enabled : Bool := false
  provider : Option (BuiltinCacheProvider α) := none
  deriving DecidableEq, Repr

/-- `isEnabled()`: `this.enabled && this.provider !== null`. -/
def CacheModule.isEnabled {α : Type} (m : CacheModule α) : Bool :=
  m.enabled && m.provider.isSome

/-- `getFullKey(key)`: coordinator namespace applied on top. -/
def CacheModule.getFullKey (key : String) : String :=
  spaceKeyPfx ++ key

/-- Coordinator `get`: null when disabled, else provider get on the full key
(the provider may lazily evict, hence the updated state). -/
def CacheModule.get {α : Type} (m : CacheModule α) (now : Nat) (key : String) :
    Option α × CacheModule α :=
  match m.provider, m.enabled with
  | some p, true =>
    let r := p.get now (CacheModule.getFullKey key)
    (r.1, { m with provider := some r.2 })
  | _, _ => (none, m)

/-- Coordinator `set`. -/
def CacheModule.set {α : Type} (m : CacheModule α) (now : Nat) (key : String) (value : α)
    (ttl? : Option Int) : CacheModule α :=
  match m.provider, m.enabled with
  | some p, true => { m with provider := some (p.set now (CacheModule.getFullKey key) value ttl?) }
  | _, _ => m

/-- Coordinator `delete`. -/
def CacheModule.delete {α : Type} (m : CacheModule α) (key : String) : CacheModule α :=
  match m.provider, m.enabled with
  | some p, true => { m with provider := some (p.delete (CacheModule.getFullKey key)) }
  | _, _ => m

/-- Coordinator `has`. -/
def CacheModule.has {α : Type} (m : CacheModule α) (now : Nat) (key : String) :
    Bool × CacheModule α :=
  match m.provider, m.enabled with
  | some p, true =>
    let r := p.has now (CacheModule.getFullKey key)
    (r.1, { m with provider := some r.2 })
  | _, _ => (false, m)

/-- Coordinator `clear`. -/
def CacheModule.clear {α : Type} (m : CacheModule α) : CacheModule α :=
  match m.provider, m.enabled with
  | some p, true => { m with provider := some p.clear }
  | _, _ => m

/-- Coordinator `keys(pattern?)`: prepends the namespace to the pattern (or
uses `space-client:*`), queries the provider, then strips the namespace from
each returned key with `key.replace(this.keyPrefix, '')`. -/
def CacheModule.keys {α : Type} (m : CacheModule α) (pattern? : Option String) : List String :=
  match m.provider, m.enabled with
  | some p, true =>
    let fullPattern :=
      match pattern? with
      | some pat => spaceKeyPfx ++ pat
      | none => spaceKeyPfx ++ "*"
    (p.keys (some fullPattern)).map (fun k => replaceFirst k spaceKeyPfx)
  | _, _ => []

/-- `getContractKey(userId)`. -/
def CacheModule.getContractKey (userId : String) : String :=
  "contract:" ++ userId

/-- `getFeatureKey(userId, featureName)`. -/
def CacheModule.getFeatureKey (userId featureName : String) : String :=
  "feature:" ++ userId ++ ":" ++ featureName

/-- `getSubscriptionKey(userId)`. -/
def CacheModule.getSubscriptionKey (userId : String) : String :=
  "subscription:" ++ userId

/-- Modelled from the spec: the pricing-token domain key shape
`pricing-token:<userId>`.  The source `CacheModule` has NO such key builder
(only contract/feature/subscription), and no code path ever writes or deletes
such a key; the name exists here only to state claims that mention it. -/
def specPricingTokenKey (userId : String) : String :=
  "pricing-token:" ++ userId

/-- `invalidateUser(userId)`: for each of the three patterns
`contract:<u>`, `feature:<u>:*`, `subscription:<u>` (NO pricing-token
pattern in the source), enumerate matching keys via `this.keys` and delete
each one. -/
def CacheModule.invalidateUser {α : Type} (m : CacheModule α) (userId : String) : CacheModule α :=
  if m.isEnabled then
    let patterns := ["contract:" ++ userId, "feature:" ++ userId ++ ":*", "subscription:" ++ userId]
    patterns.foldl
      (fun acc pat =>
        (acc.keys (some pat)).foldl (fun acc' k => acc'.delete k) acc)
      m
  else m

/-- An abstract backend conforming to the `CacheProvider` interface, whose
operations may fail (`Except`), used to express the coordinator's fault
isolation.  Results are abstract input/output functions: C8 is about the
coordinator's immediate result, not about backend state evolution. -/
structure ProviderOps (ε α : Type) where
  getOp : String → Except ε (Option α)
  setOp : String → α → Option Int → Except ε Unit
  deleteOp : String → Except ε Unit
  hasOp : String → Except ε Bool
  clearOp : Except ε Unit
  keysOp : String → Except ε (List String)

/-- The same `CacheModule` class, over an abstract provider. -/
structure CacheCoordinator (ε α : Type) where
  enabled : Bool := false
  provider : Option (ProviderOps ε α) := none

/-- `isEnabled()`. -/
def CacheCoordinator.isEnabled {ε α : Type} (m : CacheCoordinator ε α) : Bool :=
  m.enabled && m.provider.isSome

/-- Coordinator `get` with the try/catch of the source: a provider error is
caught, logged, and turned into null.  The result type is `Except` to make
"never throws to its caller" a provable statement: the theorem shows the
result is always `.ok`. -/
def CacheCoordinator.get {ε α : Type} (m : CacheCoordinator ε α) (key : String) :
    Except ε (Option α) :=
  match m.provider, m.enabled with
  | some p, true =>
    match p.getOp (CacheModule.getFullKey key) with
    | Except.ok v => Except.ok v
    | Except.error _ => Except.ok none
  | _, _ => Except.ok none

/-- Coordinator `set`: errors are swallowed ("don't throw error to avoid
breaking the main functionality"). -/
def CacheCoordinator.set {ε α : Type} (m : CacheCoordinator ε α) (key : String) (value : α)
    (ttl? : Option Int) : Except ε Unit :=
  match m.provider, m.enabled with
  | some p, true =>
    match p.setOp (CacheModule.getFullKey key) value ttl? with
    | Except.ok _ => Except.ok ()
    | Except.error _ => Except.ok ()
  | _, _ => Except.ok ()

/-- Coordinator `delete`: errors swallowed. -/
def CacheCoordinator.delete {ε α : Type} (m : CacheCoordinator ε α) (key : String) :
    Except ε Unit :=
  match m.provider, m.enabled with
  | some p, true =>
    match p.deleteOp (CacheModule.getFullKey key) with
    | Except.ok _ => Except.ok ()
    | Except.error _ => Except.ok ()
  | _, _ => Except.ok ()

/-- Coordinator `has`: errors become `false`. -/
def CacheCoordinator.has {ε α : Type} (m : CacheCoordinator ε α) (key : String) :
    Except ε Bool :=
  match m.provider, m.enabled with
  | some p, true =>
    match p.hasOp (CacheModule.getFullKey key) with
    | Except.ok b => Except.ok b
    | Except.error _ => Except.ok false
  | _, _ => Except.ok false

/-- Coordinator `clear`: errors swallowed. -/
def CacheCoordinator.clear {ε α : Type} (m : CacheCoordinator ε α) : Except ε Unit :=
  match m.provider, m.enabled with
  | some p, true =>
    match p.clearOp with
    | Except.ok _ => Except.ok ()
    | Except.error _ => Except.ok ()
  | _, _ => Except.ok ()

/-- Coordinator `keys`: errors become the empty list; on success the
namespace is stripped from each returned key. -/
def CacheCoordinator.keys {ε α : Type} (m : CacheCoordinator ε α) (pattern? : Option String) :
    Except ε (List String) :=
  match m.provider, m.enabled with
  | some p, true =>
    let fullPattern :=
      match pattern? with
      | some pat => spaceKeyPfx ++ pat
      | none => spaceKeyPfx ++ "*"
    match p.keysOp fullPattern with
    | Except.ok ks => Except.ok (ks.map (fun k => replaceFirst k spaceKeyPfx))
    | Except.error _ => Except.ok []
  | _, _ => Except.ok []

/-- `CacheType` (src/main/types/cache.ts). -/
inductive CacheType where
  | builtin
  | redis
  deriving DecidableEq, Repr

/-- `RedisConfig` (src/main/types/cache.ts): optional numeric fields are
`Option Int`; JS falsiness of `0` matters and is modelled explicitly in the
validation/default logic. -/
structure RedisConfig where
  host : String
  port : Option Int := none
  password : Option String := none
  db : Option Int := none
  connectTimeout : Option Int := none
  keyPfx : Option String := none
  deriving DecidableEq, Repr

/-- `CacheOptions` (src/main/types/cache.ts); `external.redis` is flattened
to one option since `ExternalCacheConfig` has a single field. -/
structure CacheOptions where
  enabled : Bool
  type : Option CacheType := none
  externalRedis : Option RedisConfig := none
  ttl : Option Int := none
  deriving DecidableEq, Repr

/-- The error messages thrown by `CacheProviderFactory.validate`. -/
def CacheProviderFactory.validate (options : CacheOptions) : Except String Unit :=
  if !options.enabled then Except.ok ()
  else if options.type = some CacheType.redis && options.externalRedis.isNone then
    Except.error "Redis configuration is required when using Redis cache type"
  else if (match options.ttl with | some t => t ≠ 0 && t ≤ 0 | none => false) then
    Except.error "TTL must be a positive number"
  else
    match options.type, options.externalRedis with
    | some CacheType.redis, some redis =>
      if redis.host = "" then Except.error "Redis host is required"
      else if (match redis.port with | some p => p ≠ 0 && (p < 1 || p > 65535) | none => false) then
        Except.error "Redis port must be between 1 and 65535"
      else if (match redis.db with | some d => d ≠ 0 && (d < 0 || d > 15) | none => false) then
        Except.error "Redis database number must be between 0 and 15"
      else if (match redis.connectTimeout with | some c => c ≠ 0 && c ≤ 0 | none => false) then
        Except.error "Redis connect timeout must be a positive number"
      else Except.ok ()
    | _, _ => Except.ok ()

/-- The wire-level command issued by `RedisCacheProvider.set` after a
successful connection: `actualTtl = ttl || defaultTtl`; `setEx` with the ttl
when positive, plain `set` (no expiry) otherwise.  Connection handling and
JSON serialization are outside the shallow embedding. -/
inductive RedisSetCmd (α : Type) where
  | setEx (key : String) (ttl : Int) (value : α)
  | plain (key : String) (value : α)
  deriving DecidableEq, Repr

/-- `RedisCacheProvider.set`'s command computation (src/unnamed/part_003).
`keyPfx` is the resolved key namespace (`config.keyPrefix || 'space-client:'`). -/
def RedisCacheProvider.setCmd {α : Type} (defaultTtl : Int) (keyPfx : String) (key : String)
    (value : α) (ttl? : Option Int) : RedisSetCmd α :=
  let actualTtl : Int :=
    match ttl? with
    | some t => if t ≠ 0 then t else defaultTtl
    | none => defaultTtl
  if actualTtl > 0 then RedisSetCmd.setEx (keyPfx ++ key) actualTtl value
  else RedisSetCmd.plain (keyPfx ++ key) value

/-- A contract as cached by `ContractModule`: the `userId` field is what
`addContract` reads back from the response (`contract.userId`); the rest of
the payload is opaque. -/
structure Contract (β : Type) where
  userId : String
  payload : β
  deriving DecidableEq, Repr

/-- `ContractModule.getContract` (cache-aware version): cache check by
contract key first (the JS `if (cachedContract)` truthiness test is modelled
as presence), then the remote call; on success populate with the default
ttl; on failure rethrow unchanged.  The remote call's outcome is the
explicit `remote` parameter. -/
def ContractModule.getContract {ε α : Type} (now : Nat) (userId : String)
    (remote : Except ε α) (cache : CacheModule α) : Except ε α × CacheModule α :=
  let cacheKey := CacheModule.getContractKey userId
  let readStep : Option α × CacheModule α :=
    if cache.isEnabled then cache.get now cacheKey else (none, cache)
  match readStep with
  | (some cached, c1) => (Except.ok cached, c1)
  | (none, c1) =>
    match remote with
    | Except.error e => (Except.error e, c1)
    | Except.ok contract =>
      (Except.ok contract,
        if c1.isEnabled then c1.set now cacheKey contract none else c1)

/-- `ContractModule.addContract`: on success, if caching is enabled and the
created contract's `userId` is truthy (non-empty), invalidate the user then
cache the new contract under the contract key; on failure rethrow, touching
nothing. -/
def ContractModule.addContract {ε β : Type} (now : Nat)
    (remote : Except ε (Contract β)) (cache : CacheModule (Contract β)) :
    Except ε (Contract β) × CacheModule (Contract β) :=
  match remote with
  | Except.error e => (Except.error e, cache)
  | Except.ok contract =>
    if cache.isEnabled && contract.userId ≠ "" then
      let c1 := cache.invalidateUser contract.userId
      (Except.ok contract,
        c1.set now (CacheModule.getContractKey contract.userId) contract none)
    else (Except.ok contract, cache)

/-- `ContractModule.updateContractSubscription`: on success, invalidate the
user then cache the updated contract; on failure rethrow, touching nothing. -/
def ContractModule.updateContractSubscription {ε α : Type} (now : Nat) (userId : String)
    (remote : Except ε α) (cache : CacheModule α) : Except ε α × CacheModule α :=
  match remote with
  | Except.error e => (Except.error e, cache)
  | Except.ok contract =>
    if cache.isEnabled then
      let c1 := cache.invalidateUser userId
      (Except.ok contract, c1.set now (CacheModule.getContractKey userId) contract none)
    else (Except.ok contract, cache)

/-- `FeatureModule.evaluate` (cache-aware version, ContractModule.ts
229–296): `isReadOnlyEvaluation` iff `Object.keys(expectedConsumption)` is
empty; read path only for read-only evaluations (the `if (cachedResult)`
truthiness is modelled as presence); on success, read-only evaluations are
cached with ttl 60, write evaluations instead delete the feature key and the
contract key (and nothing else); on failure rethrow. -/
def FeatureModule.evaluate {ε α : Type} (now : Nat) (userId featureId : String)
    (expectedConsumption : List (String × Int))
    (remote : Except ε α) (cache : CacheModule α) : Except ε α × CacheModule α :=
  let isReadOnlyEvaluation := expectedConsumption.isEmpty
  let cacheKey := CacheModule.getFeatureKey userId featureId
  let readStep : Option α × CacheModule α :=
    if isReadOnlyEvaluation && cache.isEnabled then cache.get now cacheKey
    else (none, cache)
  match readStep with
  | (some cached, c1) => (Except.ok cached, c1)
  | (none, c1) =>
    match remote with
    | Except.error e => (Except.error e, c1)
    | Except.ok result =>
      if isReadOnlyEvaluation && c1.isEnabled then
        (Except.ok result, c1.set now cacheKey result (some 60))
      else if c1.isEnabled then
        (Except.ok result,
          (c1.delete cacheKey).delete (CacheModule.getContractKey userId))
      else (Except.ok result, c1)

/-- `FeatureModule.revertEvaluation`: on success delete the feature key and
the contract key (no pricing-token key in the source) and return true; on
failure rethrow, touching nothing. -/
def FeatureModule.revertEvaluation {ε α : Type} (userId featureId : String)
    (remote : Except ε Unit) (cache : CacheModule α) : Except ε Bool × CacheModule α :=
  match remote with
  | Except.error e => (Except.error e, cache)
  | Except.ok _ =>
    if cache.isEnabled then
      (Except.ok true,
        (cache.delete (CacheModule.getFeatureKey userId featureId)).delete
          (CacheModule.getContractKey userId))
    else (Except.ok true, cache)

/-- `FeatureModule.generateUserPricingToken` (ContractModule.ts 333–351):
a plain remote call; the SOURCE NEVER TOUCHES THE CACHE here — no cache
check, no population, in both `FeaturesModule.ts` and the cache-aware
`ContractModule.ts` version. -/
def FeatureModule.generateUserPricingToken {ε α : Type} (remote : Except ε String)
    (cache : CacheModule α) : Except ε String × CacheModule α :=
  match remote with
  | Except.error e => (Except.error e, cache)
  | Except.ok tok => (Except.ok tok, cache)

/-- Membership of a string in a list, by propositional equality. -/
def memStr (k : String) : List String → Bool
  | [] => false
  | x :: xs => x = k || memStr k xs

/-- All keys pairwise distinct (the JS `Map` invariant). -/
def distinctList : List String → Bool
  | [] => true
  | k :: ks => !memStr k ks && distinctList ks

/-- The stored entry for a raw (fully-prefixed) key, if any. -/
def CacheModule.lookupFull {α : Type} (m : CacheModule α) (rawKey : String) :
    Option (CacheEntry α) :=
  match m.provider with
  | some p => entriesLookup p.entries rawKey
  | none => none

/-- The provider's stored keys are pairwise distinct (true of every state
reachable through the JS `Map`). -/
def CacheModule.distinctKeys {α : Type} (m : CacheModule α) : Bool :=
  match m.provider with
  | some p => distinctList (p.entries.map Prod.fst)
  | none => true

/-- Every stored raw key carries the coordinator namespace (true of every
state populated through the coordinator). -/
def CacheModule.prefixedKeys {α : Type} (m : CacheModule α) : Bool :=
  match m.provider with
  | some p => p.entries.all (fun pr => spaceKeyPfx.toList.isPrefixOf pr.1.toList)
  | none => true

theorem entriesLookup_none_of_not_memStr {α : Type} {l : List (String × CacheEntry α)}
    {k : String} (h : memStr k (l.map Prod.fst) = false) : entriesLookup l k = none := by
  induction l with
  | nil => rfl
  | cons pr rest ih =>
    simp only [List.map_cons, memStr, Bool.or_eq_false_iff, decide_eq_false_iff_not] at h
    simp only [entriesLookup, if_neg h.1]
    exact ih h.2

theorem memStr_of_entriesLookup_some {α : Type} {l : List (String × CacheEntry α)}
    {k : String} {e : CacheEntry α} (h : entriesLookup l k = some e) :
    memStr k (l.map Prod.fst) = true := by
  induction l with
  | nil => simp [entriesLookup] at h
  | cons pr rest ih =>
    by_cases hk : pr.1 = k
    · simp [memStr, hk]
    · simp only [entriesLookup] at h
      rw [if_neg hk] at h
      simp [memStr, ih h]

theorem entriesLookup_entriesDelete_ne {α : Type} (l : List (String × CacheEntry α))
    {key k : String} (h : k ≠ key) :
    entriesLookup (entriesDelete l key) k = entriesLookup l k := by
  induction l with
  | nil => rfl
  | cons pr rest ih =>
    by_cases hk : pr.1 = key
    · simp only [entriesDelete, if_pos hk, entriesLookup]
      rw [if_neg (by rw [hk]; exact fun hh => h hh.symm)]
    · simp only [entriesDelete, if_neg hk, entriesLookup]
      by_cases hk2 : pr.1 = k
      · simp [hk2]
      · rw [if_neg hk2, if_neg hk2]
        exact ih

theorem entriesLookup_entriesDelete_self {α : Type} {l : List (String × CacheEntry α)}
    {key : String} (hnd : distinctList (l.map Prod.fst) = true) :
    entriesLookup (entriesDelete l key) key = none := by
  induction l with
  | nil => rfl
  | cons pr rest ih =>
    simp only [List.map_cons, distinctList, Bool.and_eq_true, Bool.not_eq_true'] at hnd
    by_cases hk : pr.1 = key
    · rw [entriesDelete, if_pos hk]
      exact entriesLookup_none_of_not_memStr (hk ▸ hnd.1)
    · rw [entriesDelete, if_neg hk, entriesLookup, if_neg hk]
      exact ih hnd.2

theorem memStr_entriesDelete_false {α : Type} {l : List (String × CacheEntry α)}
    {key k : String} (h : memStr k (l.map Prod.fst) = false) :
    memStr k ((entriesDelete l key).map Prod.fst) = false := by
  induction l with
  | nil => rfl
  | cons pr rest ih =>
    simp only [List.map_cons, memStr, Bool.or_eq_false_iff, decide_eq_false_iff_not] at h
    by_cases hk : pr.1 = key
    · rw [entriesDelete, if_pos hk]
      exact h.2
    · rw [entriesDelete, if_neg hk]
      simp only [List.map_cons, memStr, Bool.or_eq_false_iff, decide_eq_false_iff_not]
      exact ⟨h.1, ih h.2⟩

theorem distinctList_entriesDelete {α : Type} {l : List (String × CacheEntry α)}
    (hnd : distinctList (l.map Prod.fst) = true) {key : String} :
    distinctList ((entriesDelete l key).map Prod.fst) = true := by
  induction l with
  | nil => rfl
  | cons pr rest ih =>
    simp only [List.map_cons, distinctList, Bool.and_eq_true, Bool.not_eq_true'] at hnd
    by_cases hk : pr.1 = key
    · rw [entriesDelete, if_pos hk]
      exact hnd.2
    · rw [entriesDelete, if_neg hk]
      simp only [List.map_cons, distinctList, Bool.and_eq_true, Bool.not_eq_true']
      exact ⟨memStr_entriesDelete_false hnd.1, ih hnd.2⟩

theorem all_entriesDelete {α : Type} {l : List (String × CacheEntry α)}
    {f : String × CacheEntry α → Bool} (h : l.all f = true) {key : String} :
    (entriesDelete l key).all f = true := by
  induction l with
  | nil => rfl
  | cons pr rest ih =>
    simp only [List.all_cons, Bool.and_eq_true] at h
    by_cases hk : pr.1 = key
    · rw [entriesDelete, if_pos hk]
      exact h.2
    · rw [entriesDelete, if_neg hk]
      simp only [List.all_cons, Bool.and_eq_true]
      exact ⟨h.1, ih h.2⟩

theorem entriesLookup_entriesSet_self {α : Type} (l : List (String × CacheEntry α))
    (key : String) (e : CacheEntry α) :
    entriesLookup (entriesSet l key e) key = some e := by
  induction l with
  | nil => simp [entriesSet, entriesLookup]
  | cons pr rest ih =>
    by_cases hk : pr.1 = key
    · simp [entriesSet, if_pos hk, entriesLookup]
    · rw [entriesSet, if_neg hk, entriesLookup, if_neg hk]
      exact ih

/-- Executable full-match glob test (whole key consumed), the spec-side
semantics used to compare against the code's unanchored test. -/
def globFull : List GTok → List Char → Bool
  | [], cs => cs.isEmpty
  | GTok.lit _ :: _, [] => false
  | GTok.lit c :: ts, d :: ds => c = d && globFull ts ds
  | GTok.qmark :: _, [] => false
  | GTok.qmark :: ts, _ :: ds => globFull ts ds
  | GTok.star :: ts, cs => (charTails cs).any (globFull ts)

/-- `specGlobFullMatch` is decided by `globFull`. -/
theorem globFull_iff {ts : List GTok} {cs : List Char} :
    globFull ts cs = true ↔ GMatch ts cs := by
  constructor
  · intro h
    induction ts generalizing cs with
    | nil =>
      have : cs = [] := by
        cases cs with
        | nil => rfl
        | cons c cs' => simp [globFull, List.isEmpty] at h
      subst this
      exact GMatch.nil
    | cons t ts ih =>
      match t, cs with
      | GTok.lit c, [] => simp [globFull] at h
      | GTok.lit c, d :: ds =>
        simp only [globFull, Bool.and_eq_true, decide_eq_true_eq] at h
        exact h.1 ▸ GMatch.lit (ih h.2)
      | GTok.qmark, [] => simp [globFull] at h
      | GTok.qmark, d :: ds =>
        simp only [globFull] at h
        exact GMatch.qmark (ih h)
      | GTok.star, cs =>
        have h' : ∃ s ∈ charTails cs, globFull ts s = true := by
          simpa [globFull] using List.any_eq_true.mp h
        obtain ⟨s, hs, hps⟩ := h'
        obtain ⟨run, rfl⟩ := exists_append_of_mem_charTails hs
        exact GMatch.star run (ih hps)
  · intro h
    induction h with
    | nil => rfl
    | lit _ ih => simpa [globFull] using ih
    | qmark _ ih => simpa [globFull] using ih
    | star run _ ih =>
      rename_i ts' cs' _
      show (charTails (run ++ cs')).any (globFull ts') = true
      exact List.any_eq_true.mpr ⟨cs', mem_charTails_append run cs', ih⟩

/-- Every string's own token list matches it (the pattern, read as a key,
matches itself: `*` consumes the `*` character, `?` consumes `?`). -/
theorem gmatch_tokens_self (cs : List Char) :
    GMatch (cs.map (fun c => if c = '*' then GTok.star else if c = '?' then GTok.qmark else GTok.lit c)) cs := by
  induction cs with
  | nil => exact GMatch.nil
  | cons c cs ih =>
    by_cases h1 : c = '*'
    · subst h1
      simpa using @GMatch.star ['*'] (cs.map fun c => if c = '*' then GTok.star else if c = '?' then GTok.qmark else GTok.lit c) cs ih
    · by_cases h2 : c = '?'
      · subst h2
        simpa [h1] using GMatch.qmark (c := '?') ih
      · simpa [h1, h2] using GMatch.lit (c := c) ih

/-- Concatenating matches. -/
theorem gmatch_append {ts1 ts2 : List GTok} {cs1 cs2 : List Char}
    (h1 : GMatch ts1 cs1) (h2 : GMatch ts2 cs2) : GMatch (ts1 ++ ts2) (cs1 ++ cs2) := by
  induction h1 with
  | nil => exact h2
  | lit _ ih => exact GMatch.lit ih
  | qmark _ ih => exact GMatch.qmark ih
  | star run _ ih =>
    rename_i ts' cs' _
    have := @GMatch.star run (ts' ++ ts2) _ ih
    simpa using this

theorem globTokens_append (a b : String) :
    globTokens (a ++ b) = globTokens a ++ globTokens b := by
  simp [globTokens, String.toList, String.data_append]

/-- A pattern, read as a key, is matched by itself. -/
theorem regexTest_self (s : String) : regexTest s s = true :=
  globSearch_iff.mpr ⟨[], s.toList, [], by simp, gmatch_tokens_self s.toList⟩

/-- A pattern `s ++ "*"` matches every key of the form `s ++ f`. -/
theorem regexTest_star_suffix (s f : String) : regexTest (s ++ "*") (s ++ f) = true := by
  refine globSearch_iff.mpr ⟨[], (s ++ f).toList, [], by simp, ?_⟩
  rw [globTokens_append]
  show GMatch (globTokens s ++ globTokens "*") (s ++ f).toList
  have hstar : GMatch (globTokens "*") f.toList := by
    simpa using @GMatch.star f.toList [] [] GMatch.nil
  have := gmatch_append (gmatch_tokens_self s.toList) hstar
  simpa [String.toList, String.data_append] using this

theorem replaceFirstAux_append (pat xs : List Char) :
    replaceFirstAux pat (pat ++ xs) = xs := by
  match hm : pat ++ xs with
  | [] =>
    rcases List.append_eq_nil.mp hm with ⟨rfl, rfl⟩
    rfl
  | c :: cs =>
    rw [replaceFirstAux]
    rw [if_pos (by rw [← hm]; exact (charList_isPrefixOf_iff _ _).mpr ⟨xs, rfl⟩)]
    rw [← hm, List.drop_left]

theorem asString_toList (s : String) : s.toList.asString = s := rfl

/-- Stripping the namespace from a key that starts with it. -/
theorem replaceFirst_pfx_append (pfx x : String) : replaceFirst (pfx ++ x) pfx = x := by
  rw [replaceFirst]
  rw [show (pfx ++ x).toList = pfx.toList ++ x.toList from by simp [String.toList, String.data_append]]
  rw [replaceFirstAux_append]
  exact asString_toList x

theorem memStr_iff_mem {k : String} {l : List String} : memStr k l = true ↔ k ∈ l := by
  induction l with
  | nil => simp [memStr]
  | cons x xs ih =>
    simp only [memStr, Bool.or_eq_true, decide_eq_true_eq, List.mem_cons, ih]
    constructor
    · rintro (rfl | h)
      · exact Or.inl rfl
      · exact Or.inr h
    · rintro (rfl | h)
      · exact Or.inl rfl
      · exact Or.inr h

theorem entriesLookup_isSome_of_memStr {α : Type} {l : List (String × CacheEntry α)}
    {k : String} (h : memStr k (l.map Prod.fst) = true) :
    ∃ e, entriesLookup l k = some e := by
  induction l with
  | nil => simp [memStr] at h
  | cons pr rest ih =>
    by_cases hk : pr.1 = k
    · exact ⟨pr.2, by simp [entriesLookup, hk]⟩
    · simp only [List.map_cons, memStr, Bool.or_eq_true, decide_eq_true_eq] at h
      rcases h with h | h
      · exact absurd h hk
      · obtain ⟨e, he⟩ := ih h
        exact ⟨e, by simp [entriesLookup, hk, he]⟩

theorem entriesLookup_entriesDelete_none {α : Type} {l : List (String × CacheEntry α)}
    {K key : String} (h : entriesLookup l K = none) :
    entriesLookup (entriesDelete l key) K = none := by
  by_cases hm : memStr K (l.map Prod.fst) = true
  · obtain ⟨e, he⟩ := entriesLookup_isSome_of_memStr hm
    rw [he] at h
    exact absurd h (by simp)
  · exact entriesLookup_none_of_not_memStr
      (memStr_entriesDelete_false (Bool.not_eq_true _ ▸ hm))

theorem delete_lookupFull_ne {α : Type} (m : CacheModule α) {K : String} (k : String)
    (h : K ≠ CacheModule.getFullKey k) :
    (m.delete k).lookupFull K = m.lookupFull K := by
  rcases m with ⟨en, prov⟩
  cases prov with
  | none => cases en <;> rfl
  | some p =>
    cases en with
    | false => rfl
    | true =>
      simp only [CacheModule.delete, CacheModule.lookupFull, BuiltinCacheProvider.delete]
      exact entriesLookup_entriesDelete_ne p.entries (fun hh => h hh)

theorem delete_lookupFull_none {α : Type} (m : CacheModule α) {K : String} (k : String)
    (h : m.lookupFull K = none) : (m.delete k).lookupFull K = none := by
  rcases m with ⟨en, prov⟩
  cases prov with
  | none => cases en <;> exact h
  | some p =>
    cases en with
    | false => exact h
    | true =>
      simp only [CacheModule.delete, CacheModule.lookupFull, BuiltinCacheProvider.delete]
      simp only [CacheModule.lookupFull] at h
      exact entriesLookup_entriesDelete_none h

theorem delete_lookupFull_self {α : Type} (m : CacheModule α) (k : String)
    (hd : m.distinctKeys = true) (hEn : m.isEnabled = true) :
    (m.delete k).lookupFull (CacheModule.getFullKey k) = none := by
  rcases m with ⟨en, prov⟩
  cases prov with
  | none => simp [CacheModule.isEnabled] at hEn
  | some p =>
    cases en with
    | false => simp [CacheModule.isEnabled] at hEn
    | true =>
      simp only [CacheModule.delete, CacheModule.lookupFull, BuiltinCacheProvider.delete]
      simp only [CacheModule.distinctKeys] at hd
      exact entriesLookup_entriesDelete_self hd

theorem delete_isEnabled {α : Type} (m : CacheModule α) (k : String) :
    (m.delete k).isEnabled = m.isEnabled := by
  rcases m with ⟨en, prov⟩
  cases prov <;> cases en <;> rfl

theorem delete_distinctKeys {α : Type} (m : CacheModule α) (k : String)
    (hd : m.distinctKeys = true) : (m.delete k).distinctKeys = true := by
  rcases m with ⟨en, prov⟩
  cases prov with
  | none => cases en <;> exact hd
  | some p =>
    cases en with
    | false => exact hd
    | true =>
      simp only [CacheModule.delete, CacheModule.distinctKeys, BuiltinCacheProvider.delete]
      simp only [CacheModule.distinctKeys] at hd
      exact distinctList_entriesDelete hd

theorem delete_prefixedKeys {α : Type} (m : CacheModule α) (k : String)
    (hp : m.prefixedKeys = true) : (m.delete k).prefixedKeys = true := by
  rcases m with ⟨en, prov⟩
  cases prov with
  | none => cases en <;> exact hp
  | some p =>
    cases en with
    | false => exact hp
    | true =>
      simp only [CacheModule.delete, CacheModule.prefixedKeys, BuiltinCacheProvider.delete]
      simp only [CacheModule.prefixedKeys] at hp
      exact all_entriesDelete hp

theorem foldl_delete_isEnabled {α : Type} (ks : List String) (m : CacheModule α) :
    (ks.foldl (fun acc' k => acc'.delete k) m).isEnabled = m.isEnabled := by
  induction ks generalizing m with
  | nil => rfl
  | cons k ks ih => rw [List.foldl_cons, ih, delete_isEnabled]

theorem foldl_delete_distinctKeys {α : Type} (ks : List String) (m : CacheModule α)
    (hd : m.distinctKeys = true) :
    (ks.foldl (fun acc' k => acc'.delete k) m).distinctKeys = true := by
  induction ks generalizing m with
  | nil => exact hd
  | cons k ks ih => exact ih _ (delete_distinctKeys m k hd)

theorem foldl_delete_prefixedKeys {α : Type} (ks : List String) (m : CacheModule α)
    (hp : m.prefixedKeys = true) :
    (ks.foldl (fun acc' k => acc'.delete k) m).prefixedKeys = true := by
  induction ks generalizing m with
  | nil => exact hp
  | cons k ks ih => exact ih _ (delete_prefixedKeys m k hp)

theorem foldl_delete_lookupFull_none {α : Type} (ks : List String) (m : CacheModule α)
    {K : String} (h : m.lookupFull K = none) :
    (ks.foldl (fun acc' k => acc'.delete k) m).lookupFull K = none := by
  induction ks generalizing m with
  | nil => exact h
  | cons k ks ih => exact ih _ (delete_lookupFull_none m k h)

theorem foldl_delete_lookupFull_of_mem {α : Type} :
    ∀ (ks : List String) (m : CacheModule α) {k₀ : String}, k₀ ∈ ks →
    m.distinctKeys = true → m.isEnabled = true →
    (ks.foldl (fun acc' k => acc'.delete k) m).lookupFull (CacheModule.getFullKey k₀) = none := by
  intro ks
  induction ks with
  | nil => intro m k₀ hmem _ _; simp at hmem
  | cons k ks ih =>
    intro m k₀ hmem hd hEn
    rw [List.foldl_cons]
    rcases List.mem_cons.mp hmem with rfl | hmem'
    · exact foldl_delete_lookupFull_none ks _ (delete_lookupFull_self m k₀ hd hEn)
    · exact ih _ hmem' (delete_distinctKeys m k hd) ((delete_isEnabled m k).symm ▸ hEn)

theorem foldl_delete_lookupFull_ne {α : Type} (ks : List String) (m : CacheModule α)
    {K : String} (h : ∀ k ∈ ks, CacheModule.getFullKey k ≠ K) :
    (ks.foldl (fun acc' k => acc'.delete k) m).lookupFull K = m.lookupFull K := by
  induction ks generalizing m with
  | nil => rfl
  | cons k ks ih =>
    rw [List.foldl_cons]
    rw [ih _ (fun k' hk' => h k' (List.mem_cons_of_mem _ hk'))]
    exact delete_lookupFull_ne m k (fun hh => h k (List.mem_cons_self _ _) hh.symm)

theorem keys_eq_of_enabled {α : Type} {m : CacheModule α} {p : BuiltinCacheProvider α}
    (hp : m.provider = some p) (hen : m.enabled = true) (pat : String) :
    m.keys (some pat) =
      ((p.entries.map Prod.fst).filter (fun K => regexTest (spaceKeyPfx ++ pat) K)).map
        (fun K => replaceFirst K spaceKeyPfx) := by
  rcases m with ⟨en, prov⟩
  cases hp
  cases hen
  rfl

theorem mem_keys_of_matched {α : Type} {m : CacheModule α} {p : BuiltinCacheProvider α}
    (hp : m.provider = some p) (hen : m.enabled = true) {K pat : String}
    (hmem : memStr K (p.entries.map Prod.fst) = true)
    (hmatch : regexTest (spaceKeyPfx ++ pat) K = true) :
    replaceFirst K spaceKeyPfx ∈ m.keys (some pat) := by
  rw [keys_eq_of_enabled hp hen]
  exact List.mem_map_of_mem _ (List.mem_filter.mpr ⟨memStr_iff_mem.mp hmem, hmatch⟩)

theorem exists_provider_of_isEnabled {α : Type} {m : CacheModule α}
    (hEn : m.isEnabled = true) : ∃ p, m.provider = some p ∧ m.enabled = true := by
  rcases m with ⟨en, prov⟩
  cases prov with
  | none => simp [CacheModule.isEnabled] at hEn
  | some p =>
    cases en with
    | false => simp [CacheModule.isEnabled] at hEn
    | true => exact ⟨p, rfl, rfl⟩

/-- One pass of `invalidateUser`'s loop: any stored key that the (prefixed)
pattern regex-matches, and whose name starts with the namespace, is gone
afterwards. -/
theorem invalidate_step_kills {α : Type} (m : CacheModule α) (pat dk : String)
    (hEn : m.isEnabled = true) (hd : m.distinctKeys = true)
    (hmatch : regexTest (spaceKeyPfx ++ pat) (CacheModule.getFullKey dk) = true) :
    ((m.keys (some pat)).foldl (fun acc' k => acc'.delete k) m).lookupFull
      (CacheModule.getFullKey dk) = none := by
  rcases hlook : m.lookupFull (CacheModule.getFullKey dk) with _ | e
  · exact foldl_delete_lookupFull_none _ _ hlook
  · obtain ⟨p, hp, hen⟩ := exists_provider_of_isEnabled hEn
    have hmem : memStr (CacheModule.getFullKey dk) (p.entries.map Prod.fst) = true := by
      apply memStr_of_entriesLookup_some (e := e)
      simpa [CacheModule.lookupFull, hp] using hlook
    have hin : dk ∈ m.keys (some pat) := by
      have := mem_keys_of_matched hp hen hmem hmatch
      rwa [show CacheModule.getFullKey dk = spaceKeyPfx ++ dk from rfl,
        replaceFirst_pfx_append] at this
    exact foldl_delete_lookupFull_of_mem _ _ hin hd hEn

theorem exists_append_of_isPrefixOf {a b : String}
    (h : a.toList.isPrefixOf b.toList = true) : ∃ r : String, b = a ++ r := by
  obtain ⟨t, ht⟩ := (charList_isPrefixOf_iff _ _).mp h
  refine ⟨t.asString, ?_⟩
  cases a with
  | mk da =>
    cases b with
    | mk db =>
      show String.mk db = String.mk da ++ String.mk t
      have h2 : da ++ t = db := ht
      rw [← h2]
      rfl

/-- One pass of `invalidateUser`'s loop deletes ONLY keys the pattern
matches: an unmatched stored key keeps its entry (all stored keys carrying
the namespace). -/
theorem invalidate_step_preserves_unmatched {α : Type} (m : CacheModule α) (pat : String)
    {K : String} (hpfx : m.prefixedKeys = true)
    (hnomatch : regexTest (spaceKeyPfx ++ pat) K = false) :
    ((m.keys (some pat)).foldl (fun acc' k => acc'.delete k) m).lookupFull K =
      m.lookupFull K := by
  apply foldl_delete_lookupFull_ne
  intro k hk
  rcases m with ⟨en, prov⟩
  cases prov with
  | none => cases en <;> simp [CacheModule.keys] at hk
  | some p =>
    cases en with
    | false => simp [CacheModule.keys] at hk
    | true =>
      rw [keys_eq_of_enabled rfl rfl] at hk
      obtain ⟨K', hK'mem, rfl⟩ := List.mem_map.mp hk
      have hmatch := (List.mem_filter.mp hK'mem).2
      have hKmem := (List.mem_filter.mp hK'mem).1
      have hpfxK' : spaceKeyPfx.toList.isPrefixOf K'.toList = true := by
        simp only [CacheModule.prefixedKeys, List.all_eq_true] at hpfx
        obtain ⟨pr, hpr, rfl⟩ := List.mem_map.mp hKmem
        exact hpfx pr hpr
      obtain ⟨r, rfl⟩ := exists_append_of_isPrefixOf hpfxK'
      rw [replaceFirst_pfx_append]
      show CacheModule.getFullKey r ≠ K
      intro hKeq
      rw [← hKeq] at hnomatch
      rw [show CacheModule.getFullKey r = spaceKeyPfx ++ r from rfl] at hnomatch
      rw [hmatch] at hnomatch
      exact Bool.noConfusion hnomatch

theorem strExt {a b : String} (h : a.toList = b.toList) : a = b := by
  cases a
  cases b
  exact congrArg String.mk h

theorem strAppend_assoc (a b c : String) : (a ++ b) ++ c = a ++ (b ++ c) := by
  cases a with
  | mk da =>
    cases b with
    | mk db =>
      cases c with
      | mk dc =>
        show String.mk ((da ++ db) ++ dc) = String.mk (da ++ (db ++ dc))
        rw [List.append_assoc]

theorem invalidateUser_eq {α : Type} (m : CacheModule α) (u : String)
    (hEn : m.isEnabled = true) :
    m.invalidateUser u =
      (let step := fun (acc : CacheModule α) (pat : String) =>
        (acc.keys (some pat)).foldl (fun acc' k => acc'.delete k) acc
      step (step (step m ("contract:" ++ u)) ("feature:" ++ u ++ ":*")) ("subscription:" ++ u)) := by
  simp only [CacheModule.invalidateUser, hEn, if_true, List.foldl_cons, List.foldl_nil]

theorem invalidateUser_isEnabled {α : Type} (m : CacheModule α) (u : String) :
    (m.invalidateUser u).isEnabled = m.isEnabled := by
  by_cases hEn : m.isEnabled = true
  · rw [invalidateUser_eq m u hEn]
    simp only [foldl_delete_isEnabled]
  · simp only [CacheModule.invalidateUser, Bool.not_eq_true] at hEn
    simp [CacheModule.invalidateUser, hEn]

theorem has_fst_false_of_lookupFull_none {α : Type} (m : CacheModule α) (now : Nat)
    (k : String) (h : m.lookupFull (CacheModule.getFullKey k) = none) :
    (m.has now k).1 = false := by
  rcases m with ⟨en, prov⟩
  cases prov with
  | none => cases en <;> rfl
  | some p =>
    cases en with
    | false => rfl
    | true =>
      simp only [CacheModule.lookupFull] at h
      simp only [CacheModule.has, BuiltinCacheProvider.has, h]

theorem has_fst_true_of_live {α : Type} (m : CacheModule α) (now : Nat) (k : String)
    {e : CacheEntry α} (hEn : m.isEnabled = true)
    (h : m.lookupFull (CacheModule.getFullKey k) = some e)
    (hlive : ¬((now : Int) > e.expiresAt)) : (m.has now k).1 = true := by
  obtain ⟨p, hp, hen⟩ := exists_provider_of_isEnabled hEn
  rcases m with ⟨en, prov⟩
  cases hp
  cases hen
  simp only [CacheModule.lookupFull] at h
  simp only [CacheModule.has, BuiltinCacheProvider.has, h, if_neg hlive]

/-- After `invalidateUser u` on an enabled coordinator with distinct stored
keys, any full key matched by one of the three patterns is gone. -/
theorem invalidateUser_lookupFull_none {α : Type} (m : CacheModule α) (u dk : String)
    (hEn : m.isEnabled = true) (hd : m.distinctKeys = true)
    (hmatch :
      regexTest (spaceKeyPfx ++ ("contract:" ++ u)) (CacheModule.getFullKey dk) = true ∨
      regexTest (spaceKeyPfx ++ ("feature:" ++ u ++ ":*")) (CacheModule.getFullKey dk) = true ∨
      regexTest (spaceKeyPfx ++ ("subscription:" ++ u)) (CacheModule.getFullKey dk) = true) :
    (m.invalidateUser u).lookupFull (CacheModule.getFullKey dk) = none := by
  rw [invalidateUser_eq m u hEn]
  have hEn1 : ((m.keys (some ("contract:" ++ u))).foldl (fun acc' k => acc'.delete k) m).isEnabled = true :=
    (foldl_delete_isEnabled _ _).symm ▸ hEn
  have hd1 : ((m.keys (some ("contract:" ++ u))).foldl (fun acc' k => acc'.delete k) m).distinctKeys = true :=
    foldl_delete_distinctKeys _ _ hd
  rcases hmatch with h1 | h2 | h3
  · apply foldl_delete_lookupFull_none
    apply foldl_delete_lookupFull_none
    exact invalidate_step_kills m _ dk hEn hd h1
  · apply foldl_delete_lookupFull_none
    exact invalidate_step_kills _ _ dk hEn1 hd1 h2
  · set m2 := (((m.keys (some ("contract:" ++ u))).foldl (fun acc' k => acc'.delete k) m).keys
      (some ("feature:" ++ u ++ ":*"))).foldl (fun acc' k => acc'.delete k)
      ((m.keys (some ("contract:" ++ u))).foldl (fun acc' k => acc'.delete k) m) with hm2
    exact invalidate_step_kills m2 _ dk
      ((foldl_delete_isEnabled _ _).symm ▸ hEn1)
      (foldl_delete_distinctKeys _ _ hd1) h3

/-- `invalidateUser u` leaves untouched every stored key that none of its
three patterns matches (on a namespace-prefixed store). -/
theorem invalidateUser_lookupFull_unmatched {α : Type} (m : CacheModule α) (u K : String)
    (hpfx : m.prefixedKeys = true)
    (h1 : regexTest (spaceKeyPfx ++ ("contract:" ++ u)) K = false)
    (h2 : regexTest (spaceKeyPfx ++ ("feature:" ++ u ++ ":*")) K = false)
    (h3 : regexTest (spaceKeyPfx ++ ("subscription:" ++ u)) K = false) :
    (m.invalidateUser u).lookupFull K = m.lookupFull K := by
  by_cases hEn : m.isEnabled = true
  · rw [invalidateUser_eq m u hEn]
    have s1 := invalidate_step_preserves_unmatched m ("contract:" ++ u) hpfx h1
    have hpfx1 : ((m.keys (some ("contract:" ++ u))).foldl (fun acc' k => acc'.delete k) m).prefixedKeys = true :=
      foldl_delete_prefixedKeys _ _ hpfx
    have s2 := invalidate_step_preserves_unmatched
      ((m.keys (some ("contract:" ++ u))).foldl (fun acc' k => acc'.delete k) m)
      ("feature:" ++ u ++ ":*") hpfx1 h2
    have hpfx2 := foldl_delete_prefixedKeys
      ((((m.keys (some ("contract:" ++ u))).foldl (fun acc' k => acc'.delete k) m)).keys
        (some ("feature:" ++ u ++ ":*")))
      ((m.keys (some ("contract:" ++ u))).foldl (fun acc' k => acc'.delete k) m) hpfx1
    have s3 := invalidate_step_preserves_unmatched
      ((((m.keys (some ("contract:" ++ u))).foldl (fun acc' k => acc'.delete k) m).keys
        (some ("feature:" ++ u ++ ":*"))).foldl (fun acc' k => acc'.delete k)
        ((m.keys (some ("contract:" ++ u))).foldl (fun acc' k => acc'.delete k) m))
      ("subscription:" ++ u) hpfx2 h3
    simp only []
    rw [s3, s2, s1]
  · simp only [Bool.not_eq_true] at hEn
    simp [CacheModule.invalidateUser, hEn]

theorem has_fst_false_of_disabled {α : Type} (m : CacheModule α) (now : Nat) (k : String)
    (h : m.isEnabled = false) : (m.has now k).1 = false := by
  rcases m with ⟨en, prov⟩
  cases prov with
  | none => cases en <;> rfl
  | some p =>
    cases en with
    | false => rfl
    | true => simp [CacheModule.isEnabled] at h

theorem invalidateUser_of_disabled {α : Type} (m : CacheModule α) (u : String)
    (h : m.isEnabled = false) : m.invalidateUser u = m := by
  simp [CacheModule.invalidateUser, h]

/-- C1, counterexample.  Claim C1 states that after `invalidateUser(u)`,
`has` is false for `pricing-token:u` and true for equivalent keys of any
other user set beforehand.  On the state below (user "1" with contract,
feature, subscription and pricing-token keys, plus user "12"'s contract key,
all live at `now = 0`), `invalidateUser "1"` leaves `pricing-token:1`
present (`has` = true: the source has no pricing-token pattern) and deletes
`contract:12`, user "12"'s key (`has` = false: the unanchored regex built
from `contract:1` also matches `space-client:contract:12`). -/
theorem claim_c1_counterexample :
    (((⟨true, some ⟨300,
      [("space-client:contract:1", ⟨10, 0, 300, 300000⟩),
       ("space-client:feature:1:f", ⟨11, 0, 300, 300000⟩),
       ("space-client:subscription:1", ⟨12, 0, 300, 300000⟩),
       ("space-client:pricing-token:1", ⟨13, 0, 300, 300000⟩),
       ("space-client:contract:12", ⟨14, 0, 300, 300000⟩)]⟩⟩ : CacheModule Nat).invalidateUser
      "1").has 0 (specPricingTokenKey "1")).1 = true ∧
    (((⟨true, some ⟨300,
      [("space-client:contract:1", ⟨10, 0, 300, 300000⟩),
       ("space-client:feature:1:f", ⟨11, 0, 300, 300000⟩),
       ("space-client:subscription:1", ⟨12, 0, 300, 300000⟩),
       ("space-client:pricing-token:1", ⟨13, 0, 300, 300000⟩),
       ("space-client:contract:12", ⟨14, 0, 300, 300000⟩)]⟩⟩ : CacheModule Nat).invalidateUser
      "1").has 0 (CacheModule.getContractKey "12")).1 = false := by
  constructor
  · decide
  · decide

/-- C1, amended.  After `invalidateUser(u)` completes, `has` returns false
for `contract:u`, for every `feature:u:*` key and for `subscription:u`;
`pricing-token:u` is NOT among the invalidated patterns, and a previously
set key of any user (including `pricing-token:u` itself) survives with
`has` = true exactly when none of the three prefixed patterns matches it
under the unanchored substring-regex semantics of the builtin backend — in
particular keys of a different user survive when their prefixed form does
not contain one of u's patterns as a substring (e.g. when u is not a prefix
of the other user's id), but NOT in general. -/
theorem claim_c1_amended {α : Type} (m : CacheModule α) (now : Nat) (u f : String)
    (hd : m.distinctKeys = true) (_hsu : safePat u = true) (_hsf : safePat f = true) :
    (((m.invalidateUser u).has now (CacheModule.getContractKey u)).1 = false) ∧
    (((m.invalidateUser u).has now (CacheModule.getFeatureKey u f)).1 = false) ∧
    (((m.invalidateUser u).has now (CacheModule.getSubscriptionKey u)).1 = false) ∧
    (∀ (k : String) (e : CacheEntry α), m.isEnabled = true → m.prefixedKeys = true →
      m.lookupFull (CacheModule.getFullKey k) = some e →
      regexTest (spaceKeyPfx ++ ("contract:" ++ u)) (CacheModule.getFullKey k) = false →
      regexTest (spaceKeyPfx ++ ("feature:" ++ u ++ ":*")) (CacheModule.getFullKey k) = false →
      regexTest (spaceKeyPfx ++ ("subscription:" ++ u)) (CacheModule.getFullKey k) = false →
      ¬((now : Int) > e.expiresAt) →
      ((m.invalidateUser u).has now k).1 = true) := by
  by_cases hEn : m.isEnabled = true
  · refine ⟨?_, ?_, ?_, ?_⟩
    · exact has_fst_false_of_lookupFull_none _ now _
        (invalidateUser_lookupFull_none m u _ hEn hd (Or.inl (regexTest_self _)))
    · apply has_fst_false_of_lookupFull_none _ now _
      apply invalidateUser_lookupFull_none m u _ hEn hd
      refine Or.inr (Or.inl ?_)
      have hx : (":*" : String) = ":" ++ "*" := by decide
      have claim1 : spaceKeyPfx ++ ("feature:" ++ u ++ ":*") =
          (spaceKeyPfx ++ ("feature:" ++ u ++ ":")) ++ "*" := by
        rw [hx]
        simp only [← strAppend_assoc]
      have claim2 : CacheModule.getFullKey (CacheModule.getFeatureKey u f) =
          (spaceKeyPfx ++ ("feature:" ++ u ++ ":")) ++ f := by
        simp only [CacheModule.getFullKey, CacheModule.getFeatureKey, ← strAppend_assoc]
      rw [claim1, claim2]
      exact regexTest_star_suffix _ f
    · exact has_fst_false_of_lookupFull_none _ now _
        (invalidateUser_lookupFull_none m u _ hEn hd (Or.inr (Or.inr (regexTest_self _))))
    · intro k e hEn' hpfx hlook h1 h2 h3 hlive
      have hstable := invalidateUser_lookupFull_unmatched m u (CacheModule.getFullKey k) hpfx h1 h2 h3
      exact has_fst_true_of_live _ now k
        ((invalidateUser_isEnabled m u).symm ▸ hEn)
        (hstable.symm ▸ hlook) hlive
  · simp only [Bool.not_eq_true] at hEn
    rw [invalidateUser_of_disabled m u hEn]
    exact ⟨has_fst_false_of_disabled m now _ hEn, has_fst_false_of_disabled m now _ hEn,
      has_fst_false_of_disabled m now _ hEn,
      fun k e hEn' _ _ _ _ _ _ => absurd hEn' (by simp [hEn])⟩

/-- C1 witness: the amended theorem applied at a concrete enabled store
holding contract keys for users "u1" and "v2": invalidating "u1" clears its
contract key and leaves "v2"'s contract key answering true. -/
theorem claim_c1_witness :
    ((((⟨true, some ⟨300,
      [("space-client:contract:u1", ⟨10, 0, 300, 300000⟩),
       ("space-client:contract:v2", ⟨14, 0, 300, 300000⟩)]⟩⟩ : CacheModule Nat).invalidateUser
      "u1").has 5 (CacheModule.getContractKey "u1")).1 = false) ∧
    ((((⟨true, some ⟨300,
      [("space-client:contract:u1", ⟨10, 0, 300, 300000⟩),
       ("space-client:contract:v2", ⟨14, 0, 300, 300000⟩)]⟩⟩ : CacheModule Nat).invalidateUser
      "u1").has 5 (CacheModule.getContractKey "v2")).1 = true) := by
  have h := claim_c1_amended
    (⟨true, some ⟨300,
      [("space-client:contract:u1", ⟨10, 0, 300, 300000⟩),
       ("space-client:contract:v2", ⟨14, 0, 300, 300000⟩)]⟩⟩ : CacheModule Nat)
    5 "u1" "f1" (by decide) (by decide) (by decide)
  refine ⟨h.1, ?_⟩
  exact h.2.2.2 (CacheModule.getContractKey "v2") ⟨14, 0, 300, 300000⟩
    (by decide) (by decide) (by decide) (by decide) (by decide) (by decide) (by decide)

/-- C4, counterexample.  The claim says `get`/`has` treat an entry as absent
once `now ≥ expiresAt`.  The source tests `Date.now() > entry.expiresAt`
(strict), so at `now = expiresAt` (here both 1000) the entry is still
served. -/
theorem claim_c4_counterexample :
    (((⟨300, [("k", ⟨7, 0, 1, 1000⟩)]⟩ : BuiltinCacheProvider Nat).get 1000 "k").1 = some 7) ∧
    (((⟨300, [("k", ⟨7, 0, 1, 1000⟩)]⟩ : BuiltinCacheProvider Nat).has 1000 "k").1 = true) := by
  constructor
  · decide
  · decide

/-- C4, amended.  For every entry, once current time is STRICTLY past
`expiresAt`, `get` returns none and `has` returns false regardless of any
sweep, and both lazily evict the stale entry; at `now = expiresAt` exactly,
the entry is still live. -/
theorem claim_c4_amended {α : Type} (c : BuiltinCacheProvider α) (now : Nat) (key : String)
    (e : CacheEntry α) (hlook : entriesLookup c.entries key = some e)
    (hexp : e.expiresAt < (now : Int)) :
    (c.get now key).1 = none ∧
    (c.get now key).2 = { c with entries := entriesDelete c.entries key } ∧
    (c.has now key).1 = false ∧
    (c.has now key).2 = { c with entries := entriesDelete c.entries key } := by
  refine ⟨?_, ?_, ?_, ?_⟩ <;>
    simp only [BuiltinCacheProvider.get, BuiltinCacheProvider.has, hlook, if_pos hexp]

/-- C4 witness: the amended theorem at a concrete store one millisecond past
expiry. -/
theorem claim_c4_witness :
    (((⟨300, [("k", ⟨7, 0, 1, 1000⟩)]⟩ : BuiltinCacheProvider Nat).get 1001 "k").1 = none) ∧
    (((⟨300, [("k", ⟨7, 0, 1, 1000⟩)]⟩ : BuiltinCacheProvider Nat).has 1001 "k").1 = false) := by
  have h := claim_c4_amended (⟨300, [("k", ⟨7, 0, 1, 1000⟩)]⟩ : BuiltinCacheProvider Nat)
    1001 "k" ⟨7, 0, 1, 1000⟩ (by decide) (by decide)
  exact ⟨h.1, h.2.2.1⟩

/-- C5, counterexample.  The claim says `keys(pattern)` returns exactly the
stored keys the glob pattern matches IN FULL.  The source builds an
UNANCHORED regex, so pattern `b` returns the stored key `ab` even though
`b` does not match `ab` in full. -/
theorem claim_c5_counterexample :
    ((⟨300, [("ab", ⟨1, 0, 300, 300000⟩)]⟩ : BuiltinCacheProvider Nat).keys (some "b") = ["ab"]) ∧
    ¬ specGlobFullMatch "b" "ab" := by
  refine ⟨by decide, fun h => ?_⟩
  exact absurd (globFull_iff.mpr h) (by decide)

/-- C5, amended.  `keys(pattern)` returns exactly the stored keys (live or
expired) in which the compiled glob pattern (`*` any run, `?` one character)
matches SOME contiguous substring — the unanchored-regex semantics — not
only full matches; `keys()` with no pattern returns all stored keys.
(`safePat` declares the pattern free of further regex metacharacters, the
regime in which the embedding models the JS regex faithfully.) -/
theorem claim_c5_amended {α : Type} (c : BuiltinCacheProvider α) (p key : String)
    (_hsafe : safePat p = true) :
    (key ∈ c.keys (some p) ↔ key ∈ c.entries.map Prod.fst ∧ SubstringGlobMatch p key) ∧
    c.keys none = c.entries.map Prod.fst := by
  refine ⟨?_, rfl⟩
  show key ∈ (c.entries.map Prod.fst).filter (fun k => regexTest p k) ↔ _
  rw [List.mem_filter]
  exact and_congr_right fun _ => regexTest_iff

/-- C5 witness: the amended characterization at the spec's own example —
pattern `user:123:*` against stored keys `user:123:contract`,
`user:123:feature:login`, `user:456:contract`. -/
theorem claim_c5_witness :
    (("user:123:contract" ∈
        (⟨300, [("user:123:contract", ⟨1, 0, 300, 300000⟩),
                ("user:123:feature:login", ⟨2, 0, 300, 300000⟩),
                ("user:456:contract", ⟨3, 0, 300, 300000⟩)]⟩ :
          BuiltinCacheProvider Nat).keys (some "user:123:*") ↔
      "user:123:contract" ∈
        ((⟨300, [("user:123:contract", ⟨1, 0, 300, 300000⟩),
                ("user:123:feature:login", ⟨2, 0, 300, 300000⟩),
                ("user:456:contract", ⟨3, 0, 300, 300000⟩)]⟩ :
          BuiltinCacheProvider Nat).entries.map Prod.fst) ∧
        SubstringGlobMatch "user:123:*" "user:123:contract")) ∧
    (⟨300, [("user:123:contract", ⟨1, 0, 300, 300000⟩),
            ("user:123:feature:login", ⟨2, 0, 300, 300000⟩),
            ("user:456:contract", ⟨3, 0, 300, 300000⟩)]⟩ :
      BuiltinCacheProvider Nat).keys none =
      ((⟨300, [("user:123:contract", ⟨1, 0, 300, 300000⟩),
               ("user:123:feature:login", ⟨2, 0, 300, 300000⟩),
               ("user:456:contract", ⟨3, 0, 300, 300000⟩)]⟩ :
        BuiltinCacheProvider Nat).entries.map Prod.fst) :=
  claim_c5_amended _ "user:123:*" "user:123:contract" (by decide)

/-- C6, counterexample.  The claim says an explicitly supplied ttl is always
used.  Both backends compute `ttl || defaultTtl`, so an explicit ttl of 0 is
falsy and the DEFAULT is used: with default 300, `set` at `now = 5` with
ttl 0 stores `expiresAt = 300005`, not `5 + 0 * 1000`; the networked
backend likewise sends `setEx` with 300, not the supplied 0. -/
theorem claim_c6_counterexample :
    (((⟨300, []⟩ : BuiltinCacheProvider Nat).set 5 "k" 42 (some 0)).entries =
      [("k", ⟨42, 5, 300, 300005⟩)]) ∧
    ((300005 : Int) ≠ 5 + 0 * 1000) ∧
    (RedisCacheProvider.setCmd 300 "space-client:" "k" (42 : Nat) (some 0) =
      RedisSetCmd.setEx "space-client:k" 300 42) := by
  refine ⟨by decide, by decide, by decide⟩

/-- C6, amended.  `set(key, value, ttl)` with an explicitly supplied
POSITIVE ttl uses that ttl, not the backend default, even when they differ:
the in-process backend stores `expiresAt = createdAt + ttl * 1000` with the
supplied ttl, and the networked backend issues `setEx` with the supplied
ttl.  A supplied ttl of 0 instead falls back to the default (JS `ttl ||
defaultTtl`). -/
theorem claim_c6_amended {α : Type} (c : BuiltinCacheProvider α) (now : Nat) (key : String)
    (v : α) (t dttl : Int) (kp : String) (hpos : 0 < t) :
    entriesLookup ((c.set now key v (some t)).entries) key =
      some ⟨v, now, t, (now : Int) + t * 1000⟩ ∧
    RedisCacheProvider.setCmd dttl kp key v (some t) = RedisSetCmd.setEx (kp ++ key) t v := by
  constructor
  · simp only [BuiltinCacheProvider.set, if_pos (by omega : t ≠ 0)]
    exact entriesLookup_entriesSet_self _ _ _
  · simp only [RedisCacheProvider.setCmd, if_pos (by omega : t ≠ 0)]
    rw [if_pos hpos]

/-- C6 witness: the amended theorem with supplied ttl 7 differing from
default 300. -/
theorem claim_c6_witness :
    entriesLookup (((⟨300, []⟩ : BuiltinCacheProvider Nat).set 5 "k" 42 (some 7)).entries) "k" =
      some ⟨42, 5, 7, 7005⟩ ∧
    RedisCacheProvider.setCmd 300 "space-client:" "k" (42 : Nat) (some 7) =
      RedisSetCmd.setEx "space-client:k" 7 42 :=
  claim_c6_amended (⟨300, []⟩ : BuiltinCacheProvider Nat) 5 "k" 42 7 300 "space-client:"
    (by decide)

/-- C7, counterexample.  The claim says that with a ttl present, `validate`
throws iff ttl ≤ 0.  The source guard is `options.ttl && options.ttl <= 0`;
a ttl of exactly 0 is falsy, so `validate` accepts it without error (the
same falsiness artifact accepts `port: 0` and `connectTimeout: 0`). -/
theorem claim_c7_counterexample :
    CacheProviderFactory.validate ⟨true, some CacheType.builtin, none, some 0⟩ =
      Except.ok () ∧ ((0 : Int) ≤ 0) := ⟨rfl, le_refl 0⟩

theorem exists_error_ite {c : Prop} [Decidable c] {s : String} {rest : Except String Unit} :
    (∃ msg, (if c then Except.error s else rest) = Except.error msg) ↔
      (c ∨ (¬ c ∧ ∃ msg, rest = Except.error msg)) := by
  by_cases h : c <;> simp [h]

/-- C7, amended.  `validate` is a pure function of the options and fails
exactly when: caching is enabled, and either a supplied ttl is NEGATIVE
(ttl 0 is falsy and escapes the check), or the type is the networked one
and the connection parameters are absent, or the host is empty, or a given
NONZERO port lies outside [1, 65535] (port 0 escapes), or a given database
index lies outside [0, 15], or a given connect timeout is NEGATIVE
(timeout 0 escapes). -/
theorem claim_c7_amended (o : CacheOptions) :
    (∃ msg, CacheProviderFactory.validate o = Except.error msg) ↔
      (o.enabled = true ∧
        ((∃ t, o.ttl = some t ∧ t < 0) ∨
         (o.type = some CacheType.redis ∧
           (o.externalRedis = none ∨
            ∃ r, o.externalRedis = some r ∧
              (r.host = "" ∨
               (∃ p, r.port = some p ∧ p ≠ 0 ∧ (p < 1 ∨ p > 65535)) ∨
               (∃ d, r.db = some d ∧ (d < 0 ∨ d > 15)) ∨
               (∃ c, r.connectTimeout = some c ∧ c < 0)))))) := by
  rcases o with ⟨en, ty, ext, ttl⟩
  cases en with
  | false => simp [CacheProviderFactory.validate]
  | true =>
    cases ty with
    | none =>
      cases ttl with
      | none => simp [CacheProviderFactory.validate]
      | some t =>
        simp [CacheProviderFactory.validate, exists_error_ite]
        omega
    | some ty' =>
      cases ty' with
      | builtin =>
        cases ttl with
        | none => simp [CacheProviderFactory.validate]
        | some t =>
          simp [CacheProviderFactory.validate, exists_error_ite]
          omega
      | redis =>
        cases ext with
        | none =>
          cases ttl with
          | none => simp [CacheProviderFactory.validate]
          | some t => simp [CacheProviderFactory.validate]
        | some r =>
          rcases r with ⟨host, port, pw, db, ct, kp⟩
          by_cases hh : host = ""
          · cases ttl with
            | none => simp [CacheProviderFactory.validate, exists_error_ite, hh]
            | some t =>
              simp [CacheProviderFactory.validate, exists_error_ite, hh]
              omega
          · rcases port with _ | p <;> rcases db with _ | d <;>
              rcases ct with _ | c <;> rcases ttl with _ | t <;>
              simp [CacheProviderFactory.validate, exists_error_ite, hh] <;> omega

/-- C8, confirmed.  Every coordinator operation always returns `.ok` (never
throws to its caller), and whenever `isEnabled()` is false or the underlying
backend operation throws, `get` yields null, `has` false, `keys` the empty
list, and `set`/`delete`/`clear` return normally. -/
theorem claim_c8 {ε α : Type} (m : CacheCoordinator ε α) (key pat : String) (v : α)
    (t : Option Int) :
    ((∃ r, m.get key = Except.ok r) ∧ (∃ b, m.has key = Except.ok b) ∧
     (∃ ks, m.keys (some pat) = Except.ok ks) ∧
     m.set key v t = Except.ok () ∧ m.delete key = Except.ok () ∧
     m.clear = Except.ok ()) ∧
    ((m.isEnabled = false ∨
       (∃ p, m.provider = some p ∧
         (∃ e1, p.getOp (CacheModule.getFullKey key) = Except.error e1) ∧
         (∃ e2, p.hasOp (CacheModule.getFullKey key) = Except.error e2) ∧
         (∃ e3, p.keysOp (spaceKeyPfx ++ pat) = Except.error e3))) →
      m.get key = Except.ok none ∧ m.has key = Except.ok false ∧
      m.keys (some pat) = Except.ok []) := by
  rcases m with ⟨en, prov⟩
  cases prov with
  | none =>
    cases en <;>
      exact ⟨⟨⟨none, rfl⟩, ⟨false, rfl⟩, ⟨[], rfl⟩, rfl, rfl, rfl⟩, fun _ => ⟨rfl, rfl, rfl⟩⟩
  | some p =>
    cases en with
    | false =>
      exact ⟨⟨⟨none, rfl⟩, ⟨false, rfl⟩, ⟨[], rfl⟩, rfl, rfl, rfl⟩, fun _ => ⟨rfl, rfl, rfl⟩⟩
    | true =>
      constructor
      · refine ⟨?_, ?_, ?_, ?_, ?_, ?_⟩
        · cases hop : p.getOp (CacheModule.getFullKey key) with
          | ok r => exact ⟨r, by simp [CacheCoordinator.get, hop]⟩
          | error e => exact ⟨none, by simp [CacheCoordinator.get, hop]⟩
        · cases hop : p.hasOp (CacheModule.getFullKey key) with
          | ok b => exact ⟨b, by simp [CacheCoordinator.has, hop]⟩
          | error e => exact ⟨false, by simp [CacheCoordinator.has, hop]⟩
        · cases hop : p.keysOp (spaceKeyPfx ++ pat) with
          | ok ks =>
            exact ⟨ks.map (fun k => replaceFirst k spaceKeyPfx),
              by simp [CacheCoordinator.keys, hop]⟩
          | error e => exact ⟨[], by simp [CacheCoordinator.keys, hop]⟩
        · cases hop : p.setOp (CacheModule.getFullKey key) v t with
          | ok r => simp [CacheCoordinator.set, hop]
          | error e => simp [CacheCoordinator.set, hop]
        · cases hop : p.deleteOp (CacheModule.getFullKey key) with
          | ok r => simp [CacheCoordinator.delete, hop]
          | error e => simp [CacheCoordinator.delete, hop]
        · cases hop : p.clearOp with
          | ok r => simp [CacheCoordinator.clear, hop]
          | error e => simp [CacheCoordinator.clear, hop]
      · rintro (hEn | ⟨p', hp', ⟨e1, h1⟩, ⟨e2, h2⟩, ⟨e3, h3⟩⟩)
        · simp [CacheCoordinator.isEnabled] at hEn
        · injection hp' with hp'
          subst hp'
          exact ⟨by simp [CacheCoordinator.get, h1], by simp [CacheCoordinator.has, h2],
            by simp [CacheCoordinator.keys, h3]⟩

/-- C8 witness: the theorem applied to an enabled coordinator whose backend
fails every operation — all reads yield the benign defaults. -/
theorem claim_c8_witness :
    (⟨true, some ⟨fun _ => Except.error "down", fun _ _ _ => Except.error "down",
        fun _ => Except.error "down", fun _ => Except.error "down", Except.error "down",
        fun _ => Except.error "down"⟩⟩ : CacheCoordinator String Nat).get "k" =
      Except.ok none ∧
    (⟨true, some ⟨fun _ => Except.error "down", fun _ _ _ => Except.error "down",
        fun _ => Except.error "down", fun _ => Except.error "down", Except.error "down",
        fun _ => Except.error "down"⟩⟩ : CacheCoordinator String Nat).has "k" =
      Except.ok false ∧
    (⟨true, some ⟨fun _ => Except.error "down", fun _ _ _ => Except.error "down",
        fun _ => Except.error "down", fun _ => Except.error "down", Except.error "down",
        fun _ => Except.error "down"⟩⟩ : CacheCoordinator String Nat).keys (some "pat") =
      Except.ok [] ∧
    (⟨true, some ⟨fun _ => Except.error "down", fun _ _ _ => Except.error "down",
        fun _ => Except.error "down", fun _ => Except.error "down", Except.error "down",
        fun _ => Except.error "down"⟩⟩ : CacheCoordinator String Nat).set "k" 5 none =
      Except.ok () := by
  have h := claim_c8
    (⟨true, some ⟨fun _ => Except.error "down", fun _ _ _ => Except.error "down",
        fun _ => Except.error "down", fun _ => Except.error "down", Except.error "down",
        fun _ => Except.error "down"⟩⟩ : CacheCoordinator String Nat) "k" "pat" 5 none
  have hdef := h.2 (Or.inr ⟨_, rfl, ⟨"down", rfl⟩, ⟨"down", rfl⟩, ⟨"down", rfl⟩⟩)
  exact ⟨hdef.1, hdef.2.1, hdef.2.2, h.1.2.2.2.1⟩

/-- A provider `get` (which may lazily evict an already-expired entry)
changes no observation made at the same instant. -/
theorem provider_get_snd_obs {α : Type} (p : BuiltinCacheProvider α)
    (hnd : distinctList (p.entries.map Prod.fst) = true) (now : Nat) (key k : String) :
    (((p.get now key).2).get now k).1 = (p.get now k).1 ∧
    (((p.get now key).2).has now k).1 = (p.has now k).1 := by
  rcases hl : entriesLookup p.entries key with _ | e
  · simp [BuiltinCacheProvider.get, hl]
  · by_cases hexp : (now : Int) > e.expiresAt
    · have hsnd : (p.get now key).2 = { p with entries := entriesDelete p.entries key } := by
        simp [BuiltinCacheProvider.get, hl, hexp]
      rw [hsnd]
      by_cases hk : k = key
      · subst hk
        have hdel : entriesLookup (entriesDelete p.entries k) k = none :=
          entriesLookup_entriesDelete_self hnd
        constructor
        · simp [BuiltinCacheProvider.get, hdel, hl, hexp]
        · simp [BuiltinCacheProvider.has, hdel, hl, hexp]
      · have hsame : entriesLookup (entriesDelete p.entries key) k = entriesLookup p.entries k :=
          entriesLookup_entriesDelete_ne p.entries hk
        constructor
        · rcases hlk : entriesLookup p.entries k with _ | e'
          · simp [BuiltinCacheProvider.get, hsame, hlk]
          · by_cases h2 : e'.expiresAt < (now : Int) <;>
              simp [BuiltinCacheProvider.get, hsame, hlk, h2]
        · rcases hlk : entriesLookup p.entries k with _ | e'
          · simp [BuiltinCacheProvider.has, hsame, hlk]
          · by_cases h2 : e'.expiresAt < (now : Int) <;>
              simp [BuiltinCacheProvider.has, hsame, hlk, h2]
    · have hsnd : (p.get now key).2 = p := by
        simp [BuiltinCacheProvider.get, hl, hexp]
      rw [hsnd]
      exact ⟨rfl, rfl⟩

/-- The coordinator-level version of the observation lemma. -/
theorem cm_get_snd_obs {α : Type} (m : CacheModule α) (hd : m.distinctKeys = true)
    (now : Nat) (key k : String) :
    (((m.get now key).2).get now k).1 = (m.get now k).1 ∧
    (((m.get now key).2).has now k).1 = (m.has now k).1 := by
  rcases m with ⟨en, prov⟩
  cases prov with
  | none => cases en <;> exact ⟨rfl, rfl⟩
  | some p =>
    cases en with
    | false => exact ⟨rfl, rfl⟩
    | true =>
      simp only [CacheModule.distinctKeys] at hd
      have h := provider_get_snd_obs p hd now (CacheModule.getFullKey key) (CacheModule.getFullKey k)
      exact ⟨h.1, h.2⟩

theorem head?_toList_append (a r : String) (c : Char) (h : a.toList.head? = some c) :
    (a ++ r).toList.head? = some c := by
  cases a with
  | mk da =>
    cases r with
    | mk dr =>
      show (da ++ dr).head? = some c
      cases da with
      | nil => exact absurd h (by simp [String.toList])
      | cons x xs => simpa using h

theorem featureKey_ne_contractKey (u f : String) :
    CacheModule.getFeatureKey u f ≠ CacheModule.getContractKey u := by
  intro h
  have h1 : (CacheModule.getFeatureKey u f).toList.head? = some 'f' := by
    apply head?_toList_append
    apply head?_toList_append
    apply head?_toList_append
    decide
  have h2 : (CacheModule.getContractKey u).toList.head? = some 'c' := by
    apply head?_toList_append
    decide
  rw [h, h2] at h1
  exact absurd (Option.some.inj h1) (by decide)

theorem getFullKey_inj {a b : String} (h : CacheModule.getFullKey a = CacheModule.getFullKey b) :
    a = b := by
  have := congrArg String.toList h
  simp only [CacheModule.getFullKey, String.toList, String.data_append] at this
  exact strExt (List.append_cancel_left this)

/-- C9, counterexample.  The claim says a failed remote call leaves the
cache state EQUAL to the state before.  On a miss caused by an expired
contract entry, `getContract`'s initial cache read lazily evicts that entry
before the remote call; when the remote call then fails, the error is
rethrown but the store has changed (the expired entry is gone). -/
theorem claim_c9_counterexample :
    (ContractModule.getContract 2000 "u7" (Except.error "boom")
      (⟨true, some ⟨300, [("space-client:contract:u7", ⟨(5 : Nat), 0, 1, 1000⟩)]⟩⟩ :
        CacheModule Nat)).1 = Except.error "boom" ∧
    (ContractModule.getContract 2000 "u7" (Except.error "boom")
      (⟨true, some ⟨300, [("space-client:contract:u7", ⟨(5 : Nat), 0, 1, 1000⟩)]⟩⟩ :
        CacheModule Nat)).2 ≠
      (⟨true, some ⟨300, [("space-client:contract:u7", ⟨(5 : Nat), 0, 1, 1000⟩)]⟩⟩ :
        CacheModule Nat) := by
  exact ⟨rfl, by decide⟩

/-- C9, amended.  If the remote call fails, every cache-aware domain
operation rethrows the error unchanged and runs no invalidation or
population step.  For `addContract`, `updateContractSubscription` and
`revertEvaluation` the cache state is EXACTLY unchanged; for `getContract`
and `evaluate` (which read the cache before calling out, on a miss) the
only possible change is the lazy eviction of already-expired entries by
that read, so every `get`/`has` observation at the same instant is
unchanged. -/
theorem claim_c9_amended {ε α β : Type} (now : Nat) (uid fid : String) (err : ε)
    (m : CacheModule α) (mc : CacheModule (Contract β)) (cons : List (String × Int))
    (hd : m.distinctKeys = true)
    (hmissC : (m.get now (CacheModule.getContractKey uid)).1 = none)
    (hmissF : (m.get now (CacheModule.getFeatureKey uid fid)).1 = none) :
    (ContractModule.getContract now uid (Except.error err : Except ε α) m).1 =
      Except.error err ∧
    (∀ k, (((ContractModule.getContract now uid (Except.error err : Except ε α) m).2).get
        now k).1 = (m.get now k).1 ∧
      (((ContractModule.getContract now uid (Except.error err : Except ε α) m).2).has
        now k).1 = (m.has now k).1) ∧
    ContractModule.addContract now (Except.error err) mc = (Except.error err, mc) ∧
    ContractModule.updateContractSubscription now uid (Except.error err : Except ε α) m =
      (Except.error err, m) ∧
    (FeatureModule.evaluate now uid fid cons (Except.error err : Except ε α) m).1 =
      Except.error err ∧
    (∀ k, (((FeatureModule.evaluate now uid fid cons (Except.error err : Except ε α) m).2).get
        now k).1 = (m.get now k).1 ∧
      (((FeatureModule.evaluate now uid fid cons (Except.error err : Except ε α) m).2).has
        now k).1 = (m.has now k).1) ∧
    FeatureModule.revertEvaluation uid fid (Except.error err) m = (Except.error err, m) := by
  have hGet : (ContractModule.getContract now uid (Except.error err : Except ε α) m).1 =
        Except.error err ∧
      (ContractModule.getContract now uid (Except.error err : Except ε α) m).2 =
        (if m.isEnabled then (m.get now (CacheModule.getContractKey uid)).2 else m) := by
    by_cases hEn : m.isEnabled
    · rcases hget : m.get now (CacheModule.getContractKey uid) with ⟨r, c1⟩
      rw [hget] at hmissC
      simp only at hmissC
      subst hmissC
      simp [ContractModule.getContract, hEn, hget]
    · simp [ContractModule.getContract, hEn]
  have hEval : (FeatureModule.evaluate now uid fid cons (Except.error err : Except ε α) m).1 =
        Except.error err ∧
      (FeatureModule.evaluate now uid fid cons (Except.error err : Except ε α) m).2 =
        (if cons.isEmpty && m.isEnabled then
          (m.get now (CacheModule.getFeatureKey uid fid)).2 else m) := by
    by_cases hRO : cons.isEmpty
    · by_cases hEn : m.isEnabled
      · rcases hget : m.get now (CacheModule.getFeatureKey uid fid) with ⟨r, c1⟩
        rw [hget] at hmissF
        simp only at hmissF
        subst hmissF
        simp [FeatureModule.evaluate, hRO, hEn, hget]
      · simp [FeatureModule.evaluate, hRO, hEn]
    · simp [FeatureModule.evaluate, hRO]
  refine ⟨hGet.1, ?_, rfl, rfl, hEval.1, ?_, rfl⟩
  · intro k
    rw [hGet.2]
    by_cases hEn : m.isEnabled
    · rw [if_pos hEn]
      exact cm_get_snd_obs m hd now _ k
    · rw [if_neg hEn]
      exact ⟨rfl, rfl⟩
  · intro k
    rw [hEval.2]
    by_cases hc : cons.isEmpty && m.isEnabled
    · rw [if_pos hc]
      exact cm_get_snd_obs m hd now _ k
    · rw [if_neg hc]
      exact ⟨rfl, rfl⟩

/-- C9 witness: the amended theorem at an enabled empty cache. -/
theorem claim_c9_witness :
    (ContractModule.getContract 0 "u" (Except.error "e")
      (⟨true, some ⟨300, []⟩⟩ : CacheModule Nat)).1 = Except.error "e" ∧
    ContractModule.addContract 0 (Except.error "e")
      (⟨true, some ⟨300, []⟩⟩ : CacheModule (Contract Nat)) =
      (Except.error "e", (⟨true, some ⟨300, []⟩⟩ : CacheModule (Contract Nat))) ∧
    FeatureModule.revertEvaluation "u" "f" (Except.error "e")
      (⟨true, some ⟨300, []⟩⟩ : CacheModule Nat) =
      (Except.error "e", (⟨true, some ⟨300, []⟩⟩ : CacheModule Nat)) := by
  have h := claim_c9_amended 0 "u" "f" "e" (⟨true, some ⟨300, []⟩⟩ : CacheModule Nat)
    (⟨true, some ⟨300, []⟩⟩ : CacheModule (Contract Nat)) [("g", 1)]
    (by decide) (by decide) (by decide)
  exact ⟨h.1, h.2.2.1, h.2.2.2.2.2.2⟩

/-- C10, confirmed.  `evaluate` classifies a call as read-only exactly when
`Object.keys(expectedConsumption)` is empty, not by the amounts: with a
NON-EMPTY consumption record mapping every feature to 0, the call is a
write — the result is the remote outcome whatever is cached (the
feature-evaluation cache is neither read nor populated), and on success the
feature key and the contract key are deleted (and nothing else: the final
state is exactly the two deletions). -/
theorem claim_c10 {ε α : Type} (now : Nat) (u f : String) (cons : List (String × Int))
    (remote : Except ε α) (m : CacheModule α)
    (hne : cons ≠ []) (hzero : ∀ x ∈ cons, x.2 = 0) (hd : m.distinctKeys = true) :
    (FeatureModule.evaluate now u f cons remote m).1 = remote ∧
    (∀ r, remote = Except.ok r → m.isEnabled = true →
      (FeatureModule.evaluate now u f cons remote m).2 =
        (m.delete (CacheModule.getFeatureKey u f)).delete (CacheModule.getContractKey u) ∧
      (((FeatureModule.evaluate now u f cons remote m).2).has now
        (CacheModule.getFeatureKey u f)).1 = false ∧
      (((FeatureModule.evaluate now u f cons remote m).2).has now
        (CacheModule.getContractKey u)).1 = false) := by
  have hRO : cons.isEmpty = false := by
    cases cons with
    | nil => exact absurd rfl hne
    | cons a as => rfl
  constructor
  · cases remote with
    | error e => simp [FeatureModule.evaluate, hRO]
    | ok r =>
      by_cases hEn : m.isEnabled <;> simp [FeatureModule.evaluate, hRO, hEn]
  · intro r hr hEn
    subst hr
    have hstate : (FeatureModule.evaluate now u f cons (Except.ok r : Except ε α) m).2 =
        (m.delete (CacheModule.getFeatureKey u f)).delete (CacheModule.getContractKey u) := by
      simp [FeatureModule.evaluate, hRO, hEn]
    refine ⟨hstate, ?_, ?_⟩
    · rw [hstate]
      apply has_fst_false_of_lookupFull_none
      apply delete_lookupFull_none
      exact delete_lookupFull_self m _ hd hEn
      -- the contract-key deletion cannot resurrect the feature key
    · rw [hstate]
      apply has_fst_false_of_lookupFull_none
      exact delete_lookupFull_self _ _ (delete_distinctKeys m _ hd)
        ((delete_isEnabled m _).symm ▸ hEn)

/-- C10 witness: with cached values under both the feature and contract
keys, a non-empty all-zero consumption record still goes remote and clears
both keys. -/
theorem claim_c10_witness :
    (FeatureModule.evaluate 0 "u" "f" [("f", 0)] (Except.ok 7 : Except String Nat)
      (⟨true, some ⟨300, [("space-client:feature:u:f", ⟨99, 0, 300, 300000⟩),
        ("space-client:contract:u", ⟨98, 0, 300, 300000⟩)]⟩⟩ : CacheModule Nat)).1 =
      Except.ok 7 ∧
    (((FeatureModule.evaluate 0 "u" "f" [("f", 0)] (Except.ok 7 : Except String Nat)
      (⟨true, some ⟨300, [("space-client:feature:u:f", ⟨99, 0, 300, 300000⟩),
        ("space-client:contract:u", ⟨98, 0, 300, 300000⟩)]⟩⟩ : CacheModule Nat)).2).has 0
      (CacheModule.getFeatureKey "u" "f")).1 = false ∧
    (((FeatureModule.evaluate 0 "u" "f" [("f", 0)] (Except.ok 7 : Except String Nat)
      (⟨true, some ⟨300, [("space-client:feature:u:f", ⟨99, 0, 300, 300000⟩),
        ("space-client:contract:u", ⟨98, 0, 300, 300000⟩)]⟩⟩ : CacheModule Nat)).2).has 0
      (CacheModule.getContractKey "u")).1 = false := by
  have h := claim_c10 0 "u" "f" [("f", 0)] (Except.ok 7 : Except String Nat)
    (⟨true, some ⟨300, [("space-client:feature:u:f", ⟨99, 0, 300, 300000⟩),
      ("space-client:contract:u", ⟨98, 0, 300, 300000⟩)]⟩⟩ : CacheModule Nat)
    (by decide) (by decide) (by decide)
  have h2 := h.2 7 rfl rfl
  exact ⟨h.1, h2.2.1, h2.2.2⟩

/-- C2, code bug.  The spec and the repository's own test ("Should
invalidate pricing tokens after evaluation with consumption",
FeaturesModule.test.ts) require a write evaluation to invalidate the
pricing-token key as well; the source deletes only the feature key and the
contract key.  On a state with a live pricing-token entry for the user, a
write evaluation succeeds, never touches the feature cache for reading or
writing, deletes the feature and contract keys — and leaves the
pricing-token key answering true. -/
theorem claim_c2_code_divergence :
    (FeatureModule.evaluate 0 "u7" "f1" [("f1", 1)] (Except.ok 7 : Except String Nat)
      (⟨true, some ⟨300, [("space-client:pricing-token:u7", ⟨1, 0, 300, 300000⟩),
        ("space-client:feature:u7:f1", ⟨2, 0, 300, 300000⟩),
        ("space-client:contract:u7", ⟨3, 0, 300, 300000⟩)]⟩⟩ : CacheModule Nat)).1 =
      Except.ok 7 ∧
    (((FeatureModule.evaluate 0 "u7" "f1" [("f1", 1)] (Except.ok 7 : Except String Nat)
      (⟨true, some ⟨300, [("space-client:pricing-token:u7", ⟨1, 0, 300, 300000⟩),
        ("space-client:feature:u7:f1", ⟨2, 0, 300, 300000⟩),
        ("space-client:contract:u7", ⟨3, 0, 300, 300000⟩)]⟩⟩ : CacheModule Nat)).2).has 0
      (specPricingTokenKey "u7")).1 = true ∧
    (((FeatureModule.evaluate 0 "u7" "f1" [("f1", 1)] (Except.ok 7 : Except String Nat)
      (⟨true, some ⟨300, [("space-client:pricing-token:u7", ⟨1, 0, 300, 300000⟩),
        ("space-client:feature:u7:f1", ⟨2, 0, 300, 300000⟩),
        ("space-client:contract:u7", ⟨3, 0, 300, 300000⟩)]⟩⟩ : CacheModule Nat)).2).has 0
      (CacheModule.getFeatureKey "u7" "f1")).1 = false ∧
    (((FeatureModule.evaluate 0 "u7" "f1" [("f1", 1)] (Except.ok 7 : Except String Nat)
      (⟨true, some ⟨300, [("space-client:pricing-token:u7", ⟨1, 0, 300, 300000⟩),
        ("space-client:feature:u7:f1", ⟨2, 0, 300, 300000⟩),
        ("space-client:contract:u7", ⟨3, 0, 300, 300000⟩)]⟩⟩ : CacheModule Nat)).2).has 0
      (CacheModule.getContractKey "u7")).1 = false := by
  refine ⟨rfl, by decide, by decide, by decide⟩

/-- C3, code bug.  The spec and the repository's own test ("Should cache
pricing tokens and reuse them", FeaturesModule.test.ts) require
`generateUserPricingToken` to check the cache by the pricing-token key and
return a cached token without a remote call; the source performs the remote
call unconditionally and never reads or writes the cache (the coordinator
has no `getPricingTokenKey` builder at all).  With "tok1" cached and
retrievable under the pricing-token key, the call still returns the remote
token "tok2" and leaves the cache state untouched. -/
theorem claim_c3_code_divergence :
    ((⟨true, some ⟨300, [("space-client:pricing-token:u7", ⟨"tok1", 0, 300, 300000⟩)]⟩⟩ :
      CacheModule String).get 0 (specPricingTokenKey "u7")).1 = some "tok1" ∧
    FeatureModule.generateUserPricingToken (Except.ok "tok2" : Except String String)
      (⟨true, some ⟨300, [("space-client:pricing-token:u7", ⟨"tok1", 0, 300, 300000⟩)]⟩⟩ :
        CacheModule String) =
      (Except.ok "tok2",
        (⟨true, some ⟨300, [("space-client:pricing-token:u7", ⟨"tok1", 0, 300, 300000⟩)]⟩⟩ :
          CacheModule String)) := by
  exact ⟨by decide, rfl⟩
